import Mathlib

/-!
Shallow embedding of the `sato` s-expression HTML templating engine.

The embedding follows the sources in `src/`:

* `src/template.rs` — the template AST (`TemplateExprNode`, `Template`);
  the current revision's attribute type (`TemplateAttribute`) is absent
  from `src/` and is reconstructed from its use in
  `Renderer::evaluate_attrs` (`src/renderer.rs`, lines 318-325): an
  attribute is one key expression together with a list of value
  expressions.
* `src/context.rs` — `ContextValue`, `RenderContext` (a `BTreeMap` keyed
  by `String`, modelled as an association list sorted by a
  character-lexicographic key order), `RenderContext::insert` /
  `RenderContext::get` (which strip leading `$` sigils) and the fluent
  `RenderContextBuilder` (whose `insert` stores the key verbatim).
* `src/renderer.rs` — `RenderValue`, its `PartialEq` / `PartialOrd`
  implementations, `finalize`, `expand_variable`, `basic_html_tag`,
  `standard_issue_functions` (the dispatch table of the default
  renderer) and `Renderer::evaluate` / `evaluate_multiple` /
  `evaluate_attrs` / `render`.
* The current revision of `src/builtins.rs` is not in `src/`: the
  `builtins.rs` shipped there is a superseded revision (its handler
  signatures return `Vec<String>`, it lacks `do_get` / `do_cmp_op` /
  `do_math_op` that `standard_issue_functions` registers, and it refers
  to a `RenderError::Mod` variant that no longer exists).  The builtin
  handlers below are therefore modelled from the specification, each
  marked `Modelled from the spec:` in its doc comment.

Rust machine integers (`i64`) are modelled as `Int` with an explicit
two's-complement wrap (`wrap64`); truncating division/remainder are
`Int.tdiv` / `Int.tmod`.  Fallible evaluation returns `Except` over an
error type that distinguishes renderer errors, fatal runtime failures
(Rust panics, e.g. division by zero) and fuel exhaustion of the
embedding (template evaluation can diverge through self-referential
`Template` values, so the evaluator is indexed by fuel).
-/

namespace Sato

/-- Template AST, from `src/template.rs`.  `tag` carries the tag name, the
attribute block and the ordered children; an attribute is a key
expression and a list of value expressions (see the module comment). -/
inductive TemplateExprNode where
  | identifier (name : String)
  | integer (value : Int)
  | tag (name : String) (attrs : List (TemplateExprNode × List TemplateExprNode))
        (children : List TemplateExprNode)

/-- Caller-supplied data values, from `src/context.rs` (`ContextValue`).
`object` carries the entries of a nested `RenderContext` (a sorted map);
`template` carries the root node of a nested `Template`. -/
inductive ContextValue where
  | integer (i : Int)
  | boolean (b : Bool)
  | str (s : String)
  | vec (items : List ContextValue)
  | object (entries : List (String × ContextValue))
  | template (t : TemplateExprNode)

/-- `RenderContext` is a `BTreeMap<String, ContextValue>`
(`src/context.rs`, line 139), modelled as an association list kept
sorted by key. -/
abbrev RenderContext := List (String × ContextValue)

/-- Character order used for map keys, mirroring the `Ord` instance of
Rust `String` (lexicographic). -/
def charLtB (a b : Char) : Bool := decide (a < b)

/-- Lexicographic order on character lists (the Rust `String` order used
by `BTreeMap`). -/
def strLtB : List Char → List Char → Bool
  | [], [] => false
  | [], _ :: _ => true
  | _ :: _, [] => false
  | a :: as1, b :: bs1 =>
    if charLtB a b then true
    else if charLtB b a then false
    else strLtB as1 bs1

/-- Key order on strings. -/
def keyLt (a b : String) : Bool := strLtB a.data b.data

/-- `BTreeMap::insert`: insert into the sorted association list,
replacing the value when the key is already present. -/
def mapInsert {α : Type} : List (String × α) → String → α → List (String × α)
  | [], k, v => [(k, v)]
  | (k1, v1) :: rest, k, v =>
    if keyLt k k1 then (k, v) :: (k1, v1) :: rest
    else if keyLt k1 k then (k1, v1) :: mapInsert rest k v
    else (k, v) :: rest

/-- `BTreeMap::get`: lookup by key equality. -/
def mapLookup {α : Type} : List (String × α) → String → Option α
  | [], _ => none
  | (k1, v1) :: rest, k => if k = k1 then some v1 else mapLookup rest k

/-- `str::trim_start_matches('$')`: drop every leading `$` of a key
(`src/context.rs`, lines 152 and 159). -/
def stripSigils (s : String) : String :=
  String.mk (s.data.dropWhile (fun c => c == '$'))

/-- `RenderContext::insert` (`src/context.rs`, lines 147-153): the key is
sigil-stripped before insertion. -/
def ctxInsert (ctx : RenderContext) (k : String) (v : ContextValue) : RenderContext :=
  mapInsert ctx (stripSigils k) v

/-- `RenderContext::get` (`src/context.rs`, lines 155-160): the key is
sigil-stripped before lookup. -/
def ctxGet (ctx : RenderContext) (k : String) : Option ContextValue :=
  mapLookup ctx (stripSigils k)

/-- `RenderContextBuilder::insert` (`src/context.rs`, lines 168-175): the
key is stored verbatim, with no sigil stripping. -/
def builderInsert (b : List (String × ContextValue)) (k : String) (v : ContextValue) :
    List (String × ContextValue) :=
  mapInsert b k v

/-- `RenderContextBuilder::build` (`src/context.rs`, lines 177-179): the
accumulated map becomes the context unchanged. -/
def builderBuild (b : List (String × ContextValue)) : RenderContext := b

/-- A context built by a sequence of `RenderContext::insert` calls
starting from the default (empty) context. -/
def ctxOfInserts (kvs : List (String × ContextValue)) : RenderContext :=
  kvs.foldl (fun m kv => ctxInsert m kv.1 kv.2) []

/-- Evaluator result values, from `src/renderer.rs` (`RenderValue`,
lines 10-19). -/
inductive RenderValue where
  | str (s : String)
  | integer (i : Int)
  | boolean (b : Bool)
  | vec (items : List RenderValue)
  | object (entries : List (String × RenderValue))
  | template (t : TemplateExprNode)
  | empty

mutual
/-- `From<&ContextValue> for RenderValue` (`src/renderer.rs`,
lines 91-106): structural conversion. -/
def toRV : ContextValue → RenderValue
  | .integer i => .integer i
  | .boolean b => .boolean b
  | .str s => .str s
  | .vec l => .vec (toRVList l)
  | .object o => .object (toRVEntries o)
  | .template t => .template t

def toRVList : List ContextValue → List RenderValue
  | [] => []
  | x :: xs => toRV x :: toRVList xs

def toRVEntries : List (String × ContextValue) → List (String × RenderValue)
  | [] => []
  | (k, v) :: xs => (k, toRV v) :: toRVEntries xs
end

mutual
/-- `RenderValue::finalize` (`src/renderer.rs`, lines 22-32): reduce a
value tree to the output string. -/
def finalize : RenderValue → String
  | .str s => s
  | .integer i => toString i
  | .boolean b => if b then "true" else "false"
  | .vec l => finalizeList l
  | .object o => finalizeEntries o
  | .template _ => ""
  | .empty => ""

def finalizeList : List RenderValue → String
  | [] => ""
  | x :: xs => finalize x ++ finalizeList xs

def finalizeEntries : List (String × RenderValue) → String
  | [] => ""
  | (_, v) :: xs => finalize v ++ finalizeEntries xs
end

mutual
/-- `PartialEq for RenderValue` (`src/renderer.rs`, lines 108-118):
same-kind pairs compare structurally, every other pair is unequal. -/
def rvEq : RenderValue → RenderValue → Bool
  | .integer a, .integer b => a == b
  | .boolean a, .boolean b => a == b
  | .str a, .str b => a == b
  | .vec a, .vec b => rvEqList a b
  | _, _ => false

def rvEqList : List RenderValue → List RenderValue → Bool
  | [], [] => true
  | x :: xs, y :: ys => rvEq x y && rvEqList xs ys
  | _, _ => false
end

mutual
/-- `PartialOrd for RenderValue` (`src/renderer.rs`, lines 120-130):
same-kind pairs are ordered by the order of that kind (lists
lexicographically), every other pair is unordered (`None`). -/
def rvCmp : RenderValue → RenderValue → Option Ordering
  | .integer a, .integer b => some (compare a b)
  | .boolean a, .boolean b => some (compare a b)
  | .str a, .str b => some (compare a b)
  | .vec a, .vec b => rvCmpList a b
  | _, _ => none

/-- Lexicographic comparison of value lists, as Rust `Vec`
`PartialOrd`: compare elementwise until a non-`Equal` answer (which may
be `None`), then compare lengths. -/
def rvCmpList : List RenderValue → List RenderValue → Option Ordering
  | [], [] => some .eq
  | [], _ :: _ => some .lt
  | _ :: _, [] => some .gt
  | x :: xs, y :: ys =>
    match rvCmp x y with
    | some .eq => rvCmpList xs ys
    | o => o
end

/-- The kind (variant) of a `RenderValue`. -/
inductive RVKind where
  | kStr | kInteger | kBoolean | kVec | kObject | kTemplate | kEmpty
deriving DecidableEq

/-- Kind of a value. -/
def rvKind : RenderValue → RVKind
  | .str _ => .kStr
  | .integer _ => .kInteger
  | .boolean _ => .kBoolean
  | .vec _ => .kVec
  | .object _ => .kObject
  | .template _ => .kTemplate
  | .empty => .kEmpty

/-- Modelled from the spec: the truthiness used by the current `do_if`
(absent from `src/`): truthy iff `Boolean(true)`, a non-empty `String`,
or a non-zero `Integer`; everything else is falsy. -/
def truthy : RenderValue → Bool
  | .boolean b => b
  | .str s => !(s == "")
  | .integer i => !(i == 0)
  | _ => false

/-- `RenderError` (`src/renderer.rs`, lines 168-198), one named variant
per builtin/category, carrying a message and the offending nodes. -/
inductive RenderError where
  | expectedVariable (what : String)
  | expandVar (msg : String) (expr : String)
  | isSet (msg : String) (nodes : List TemplateExprNode)
  | cmp (msg : String) (nodes : List TemplateExprNode)
  | ifTag (msg : String) (nodes : List TemplateExprNode)
  | caseTag (msg : String) (nodes : List TemplateExprNode)
  | switchTag (msg : String) (nodes : List TemplateExprNode)
  | forTag (msg : String) (attrs : List (String × String)) (nodes : List TemplateExprNode)
  | getTag (msg : String) (nodes : List TemplateExprNode)
  | math (msg : String) (nodes : List TemplateExprNode)
  | userDefined (name : String) (msg : String) (nodes : List TemplateExprNode)
  | evalMsg (msg : String)

/-- Outcome classes of the embedded evaluator: a `RenderError`, a fatal
unrecovered runtime failure (a Rust panic, e.g. division by zero), or
fuel exhaustion of the embedding. -/
inductive EvalErr where
  | render (e : RenderError)
  | panic
  | outOfFuel

abbrev Res (α : Type) := Except EvalErr α

/-- Effectful map over a list (the `collect::<Result<...>>` pattern of
the sources): evaluate left to right, stopping at the first error. -/
def mapE {α β : Type} (f : α → Res β) : List α → Res (List β)
  | [] => .ok []
  | a :: rest => do
    let b ← f a
    let bs ← mapE f rest
    .ok (b :: bs)

/-- The iteration skeleton of `do_for`: one mutable scope copy
(`second_context`) is threaded through the iterations; each iteration
first updates it with the loop bindings (`step`) and then evaluates the
body in it, collecting the per-iteration results in order. -/
def loopThread {α : Type} (step : RenderContext → α → RenderContext)
    (evalBody : RenderContext → Res RenderValue) :
    RenderContext → List α → Res (List RenderValue)
  | _, [] => .ok []
  | sctx, a :: rest => do
    let s := step sctx a
    let r ← evalBody s
    let rs ← loopThread step evalBody s rest
    .ok (r :: rs)

/-- Split a character list at every `.` (Rust `str::split('.')`:
empty pieces are kept). -/
def splitDotAux : List Char → List Char → List String
  | [], acc => [String.mk acc.reverse]
  | c :: cs, acc =>
    if c == '.' then String.mk acc.reverse :: splitDotAux cs []
    else splitDotAux cs (c :: acc)

/-- `str::split('.')` on a string. -/
def splitDot (s : String) : List String := splitDotAux s.data []

/-- One step of the dotted-path `try_fold` of `expand_variable`
(`src/renderer.rs`, lines 208-224): once an output is chosen the state
is passed through unchanged; otherwise the segment is looked up —
an `Object` means descend, any other present value is the output, a
missing segment outputs `Boolean(false)`. -/
def dotStep (st : RenderContext × Option RenderValue) (seg : String) :
    RenderContext × Option RenderValue :=
  match st.2 with
  | some _ => st
  | none =>
    match ctxGet st.1 seg with
    | some (.object o) => (o, none)
    | some item => (st.1, some (toRV item))
    | none => (st.1, some (.boolean false))

/-- The dotted-path walk of `expand_variable`: fold `dotStep` over the
segments and fall back to the literal text when no output was chosen
(every segment was an `Object`). -/
def dotFold (segs : List String) (ctx : RenderContext) (dflt : RenderValue) : RenderValue :=
  match (segs.foldl dotStep (ctx, none)).2 with
  | some v => v
  | none => dflt

/-- The dotted-path walk, restated as the specification describes it:
walk the segments left to right; a missing segment yields
`Boolean(false)`; a present non-`Object` value is returned immediately
with the remaining segments never consulted; descending past the last
segment falls back to the default. -/
def dotWalk : List String → RenderContext → RenderValue → RenderValue
  | [], _, dflt => dflt
  | s :: rest, ctx, dflt =>
    match ctxGet ctx s with
    | some (.object o) => dotWalk rest o dflt
    | some v => toRV v
    | none => .boolean false

/-- Modelled from the spec: the synthetic list `[lo, hi)` stepped by
`step` produced by the current `parse_range` (absent from `src/`).
Structural recursion on a fuel bound of `(hi - lo).toNat`, which
suffices whenever `0 < step`; a non-positive step yields the empty
list. -/
def rangeListAux (step : Int) : Int → Int → Nat → List Int
  | _, _, 0 => []
  | lo, hi, fuel + 1 => if lo < hi then lo :: rangeListAux step (lo + step) hi fuel else []

/-- The synthetic range list `[lo, hi)` stepped by `step`. -/
def rangeList (lo hi step : Int) : List Int :=
  if 0 < step then rangeListAux step lo hi (hi - lo).toNat else []

/-- Two's-complement wrap to 64 bits (Rust `i64` arithmetic). -/
def wrap64 (n : Int) : Int := Int.emod (n + 2 ^ 63) (2 ^ 64) - 2 ^ 63

/-- The comparison operators wired in `standard_issue_functions`
(`src/renderer.rs`, lines 289-294). -/
inductive CmpKind where
  | ceq | cne | clt | cgt | cle | cge
deriving DecidableEq

/-- Semantics of a comparison operator on evaluated operands, as the
closures of `standard_issue_functions`: `==`, `!=`, `<`, `>`, `<=`,
`>=` of `RenderValue` (`PartialEq` / `PartialOrd`); an unordered pair
makes every order operator return `false`. -/
def cmpFn : CmpKind → RenderValue → RenderValue → Bool
  | .ceq, a, b => rvEq a b
  | .cne, a, b => !(rvEq a b)
  | .clt, a, b => rvCmp a b == some .lt
  | .cgt, a, b => rvCmp a b == some .gt
  | .cle, a, b =>
    match rvCmp a b with
    | some .lt => true
    | some .eq => true
    | _ => false
  | .cge, a, b =>
    match rvCmp a b with
    | some .gt => true
    | some .eq => true
    | _ => false

/-- The arithmetic operators wired in `standard_issue_functions`
(`src/renderer.rs`, lines 296-300). -/
inductive MathOp where
  | add | sub | mul | div | mod
deriving DecidableEq

/-- Tag name of an arithmetic operator. -/
def mathName : MathOp → String
  | .add => "+"
  | .sub => "-"
  | .mul => "*"
  | .div => "/"
  | .mod => "%"

/-- The builtin handlers registered by `standard_issue_functions`
(`src/renderer.rs`, lines 279-303). -/
inductive Handler where
  | hHtml | hIsSet | hIf | hSwitch | hCase | hFor | hGet
  | hCmp (c : CmpKind)
  | hMath (m : MathOp)

/-- `standard_issue_functions` (`src/renderer.rs`, lines 279-303): the
dispatch table of the default renderer. -/
def stdFunctions : String → Option Handler
  | "html" => some .hHtml
  | "is-set" => some .hIsSet
  | "if" => some .hIf
  | "switch" => some .hSwitch
  | "case" => some .hCase
  | "for" => some .hFor
  | "get" => some .hGet
  | "eq" => some (.hCmp .ceq)
  | "lt" => some (.hCmp .clt)
  | "gt" => some (.hCmp .cgt)
  | "lte" => some (.hCmp .cle)
  | "gte" => some (.hCmp .cge)
  | "ne" => some (.hCmp .cne)
  | "+" => some (.hMath .add)
  | "-" => some (.hMath .sub)
  | "*" => some (.hMath .mul)
  | "/" => some (.hMath .div)
  | "%" => some (.hMath .mod)
  | _ => none

/-- Modelled from the spec: the current `do_is_set` (absent from
`src/`): one child, which must be an `Identifier`; the result is
`Boolean(true)` iff that name resolves to any value in the context
(whatever its kind), else `Boolean(false)`; a non-identifier child is
an `IsSet` error. -/
def doIsSetF (children : List TemplateExprNode) (ctx : RenderContext) : Res RenderValue :=
  match children.head? with
  | some (.identifier id) => .ok (.boolean (ctxGet ctx id).isSome)
  | _ => .error (.render (.isSet "expected identifier" children))

/-- Modelled from the spec: the current `do_if` (absent from `src/`):
evaluate the first child; when truthy, evaluate and return the second
child (an `If` error when absent); when falsy, evaluate the third child
when present, else `Empty`. -/
def doIfF (evalE : TemplateExprNode → Res RenderValue)
    (children : List TemplateExprNode) : Res RenderValue := do
  let cond ← match children.head? with
    | some c => pure c
    | none => .error (.render (.ifTag "condition not found" children))
  let v ← evalE cond
  if truthy v then
    match children.get? 1 with
    | some a => evalE a
    | none => .error (.render (.ifTag "code block not found" children))
  else
    match children.get? 2 with
    | some b => evalE b
    | none => .ok .empty

/-- Modelled from the spec: the current `do_switch` (absent from
`src/`): evaluate the first child, finalize it to a string, bind it
under the reserved name `__switch` into a copy of the context, then
evaluate every remaining child against that copy, collecting the
results into a `List`. -/
def doSwitchF (evalE : TemplateExprNode → RenderContext → Res RenderValue)
    (children : List TemplateExprNode) (ctx : RenderContext) : Res RenderValue := do
  let c0 ← match children.head? with
    | some c => pure c
    | none => .error (.render (.switchTag "variable not found" children))
  let v ← evalE c0 ctx
  let ctx2 := ctxInsert ctx "__switch" (.str (finalize v))
  (mapE (fun cs => evalE cs ctx2) (children.drop 1)).map RenderValue.vec

/-- Modelled from the spec: the current `do_case` (absent from `src/`):
the first child must be a literal `Identifier`; it is compared by exact
string equality with the hidden `__switch` discriminant; on a match the
remaining children are evaluated and returned as a `List`, otherwise
the result is `Empty`. -/
def doCaseF (evalM : List TemplateExprNode → Res RenderValue)
    (children : List TemplateExprNode) (ctx : RenderContext) : Res RenderValue := do
  let c0 ← match children.head? with
    | some c => pure c
    | none => .error (.render (.caseTag "variant not found" children))
  let sw ← match ctxGet ctx "__switch" with
    | some v => pure v
    | none => .error (.render (.caseTag "builtin switch variable not found?" children))
  match c0, sw with
  | .identifier cstr, .str sstr =>
    if cstr = sstr then evalM (children.drop 1) else .ok .empty
  | _, _ => .ok .empty

/-- Modelled from the spec: the current `do_get` (absent from `src/`):
evaluate both children; a `(List, Integer)` pair yields the element at
that 0-based index (a `Get` error when out of bounds), an
`(Object, String)` pair yields the named member (a `Get` error when
absent), and any other kind pairing is a `Get` error. -/
def doGetF (evalE : TemplateExprNode → Res RenderValue)
    (children : List TemplateExprNode) : Res RenderValue := do
  let c0 ← match children.head? with
    | some c => pure c
    | none => .error (.render (.getTag "missing indexable" children))
  let c1 ← match children.get? 1 with
    | some c => pure c
    | none => .error (.render (.getTag "missing index" children))
  let v0 ← evalE c0
  let v1 ← evalE c1
  match v0, v1 with
  | .vec items, .integer i =>
    if 0 ≤ i then
      match items.get? i.toNat with
      | some x => .ok x
      | none => .error (.render (.getTag "out of bounds" children))
    else .error (.render (.getTag "out of bounds" children))
  | .object entries, .str s =>
    match mapLookup entries s with
    | some x => .ok x
    | none => .error (.render (.getTag "member not found" children))
  | _, _ => .error (.render (.getTag "invalid index or indexable" children))

/-- `do_cmp_op` modelled from the spec (the function itself is absent
from `src/`; its wiring is `standard_issue_functions`,
`src/renderer.rs` lines 289-294): evaluate both operands and apply the
operator's `RenderValue` comparison, returning a `Boolean`. -/
def doCmpOpF (evalE : TemplateExprNode → Res RenderValue) (c : CmpKind)
    (children : List TemplateExprNode) : Res RenderValue := do
  let c0 ← match children.head? with
    | some e => pure e
    | none => .error (.render (.cmp "missing operand" children))
  let c1 ← match children.get? 1 with
    | some e => pure e
    | none => .error (.render (.cmp "missing operand" children))
  let v0 ← evalE c0
  let v1 ← evalE c1
  .ok (.boolean (cmpFn c v0 v1))

/-- `do_math_op` modelled from the spec (the function itself is absent
from `src/`; its wiring is `standard_issue_functions`,
`src/renderer.rs` lines 296-300): evaluate both operands, which must
reduce to `Integer` (else a `Math` error); apply two's-complement
64-bit arithmetic, with truncating division/remainder; division or
remainder by zero is a fatal, unrecovered runtime failure (a panic). -/
def doMathOpF (evalE : TemplateExprNode → Res RenderValue) (m : MathOp)
    (children : List TemplateExprNode) : Res RenderValue := do
  let c0 ← match children.head? with
    | some e => pure e
    | none => .error (.render (.math "missing operand" children))
  let c1 ← match children.get? 1 with
    | some e => pure e
    | none => .error (.render (.math "missing operand" children))
  let v0 ← evalE c0
  let v1 ← evalE c1
  match v0, v1 with
  | .integer a, .integer b =>
    match m with
    | .add => .ok (.integer (wrap64 (a + b)))
    | .sub => .ok (.integer (wrap64 (a - b)))
    | .mul => .ok (.integer (wrap64 (a * b)))
    | .div => if b = 0 then .error .panic else .ok (.integer (wrap64 (Int.tdiv a b)))
    | .mod => if b = 0 then .error .panic else .ok (.integer (Int.tmod a b))
  | _, _ => .error (.render (.math "operand is not an integer" children))

/-- Render an attribute pair as the literal markup fragment
` name="value"` (`basic_html_tag`, `src/renderer.rs` lines 261-266). -/
def attrString (eattrs : List (String × String)) : String :=
  String.join (eattrs.map (fun kv => " " ++ kv.1 ++ "=\"" ++ kv.2 ++ "\""))

/-- `basic_html_tag` (`src/renderer.rs`, lines 259-276): a childless
element renders self-closing; otherwise the children are evaluated
between the opening and closing tags. -/
def basicHtmlTagF (evalM : List TemplateExprNode → Res RenderValue) (name : String)
    (eattrs : List (String × String)) (children : List TemplateExprNode) :
    Res RenderValue := do
  let attrStr := attrString eattrs
  if children.isEmpty then
    .ok (.vec [.str ("<" ++ name ++ attrStr ++ " />")])
  else do
    let inner ← evalM children
    .ok (.vec [.str ("<" ++ name ++ attrStr ++ ">"), inner, .str ("</" ++ name ++ ">")])

/-- `do_html`: prefix a literal doctype marker, then behave as the
default tag handler for a synthetic `html` element (per the spec; the
current revision is absent from `src/`). -/
def doHtmlF (evalM : List TemplateExprNode → Res RenderValue)
    (eattrs : List (String × String)) (children : List TemplateExprNode) :
    Res RenderValue := do
  let rest ← basicHtmlTagF evalM "html" eattrs children
  .ok (.vec [.str "<!doctype html5>", rest])

/-- Is this node the literal identifier `in`? (`do_for` header
search.) -/
def isInIdent : TemplateExprNode → Bool
  | .identifier s => s == "in"
  | _ => false

/-- Modelled from the spec: the `range` iterable of the current
`do_for` / `parse_range` (absent from `src/`): the children are
expressions evaluated to integers (the step defaulting to `1`),
producing the synthetic list `[lo, hi)` stepped by `step` as a
`ContextValue` list. A child that does not reduce to an integer is a
`For` error. -/
def rangeAsInt (rchildren : List TemplateExprNode) (v : RenderValue) : Res Int :=
  match v with
  | .integer i => .ok i
  | _ => .error (.render (.forTag "invalid range" [] rchildren))

def parseRangeF (evalE : TemplateExprNode → Res RenderValue)
    (rchildren : List TemplateExprNode) : Res ContextValue := do
  let v1 ← match rchildren.head? with
    | some e => evalE e
    | none => .error (.render (.forTag "invalid range" [] rchildren))
  let lo ← rangeAsInt rchildren v1
  let v2 ← match rchildren.get? 1 with
    | some e => evalE e
    | none => .error (.render (.forTag "invalid range" [] rchildren))
  let hi ← rangeAsInt rchildren v2
  let step ← match rchildren.get? 2 with
    | some e => do rangeAsInt rchildren (← evalE e)
    | none => .ok 1
  .ok (.vec ((rangeList lo hi step).map ContextValue.integer))

/-- Modelled from the spec: the current `do_for` (absent from `src/`),
canonical positional form `item in iterable body...`,
`(enumerate index item) in iterable body...`, and
`key value in iterable body...` for objects.  The iterable is an
identifier resolving to a `List` or `Object`, or a `range` tag; the
loop bindings are inserted into one copy of the context
(`second_context`) threaded through the iterations, and the
per-iteration body results are collected into a `List`.  A malformed
header or a non-iterable value is a `For` error. -/
def doForF (evalE : TemplateExprNode → RenderContext → Res RenderValue)
    (evalM : List TemplateExprNode → RenderContext → Res RenderValue)
    (eattrs : List (String × String)) (children : List TemplateExprNode)
    (ctx : RenderContext) : Res RenderValue := do
  let p ← match children.findIdx? isInIdent with
    | some p => pure p
    | none => .error (.render (.forTag "no in keyword" eattrs children))
  let iterable ← match children.get? (p + 1) with
    | some (.identifier id) =>
      match ctxGet ctx id with
      | some cv => pure cv
      | none => .error (.render (.forTag "iterable is not a variable" eattrs children))
    | some (.tag nm _ rchildren) =>
      if nm = "range" then parseRangeF (fun e => evalE e ctx) rchildren
      else .error (.render (.forTag "iteration variable is not a valid type" eattrs children))
    | _ => .error (.render (.forTag "iteration variable is not a valid type" eattrs children))
  let body := children.drop (p + 2)
  match iterable with
  | .vec items =>
    if p = 0 then .error (.render (.forTag "missing variable to iterate over" eattrs children))
    else
      match children.get? (p - 1) with
      | some (.identifier x) =>
        (loopThread (fun s iv => ctxInsert s x iv.2) (fun s => evalM body s)
          ctx items.enum).map RenderValue.vec
      | some (.tag nm _ ech) =>
        if nm = "enumerate" then
          match ech with
          | .identifier idx :: .identifier itm :: _ =>
            (loopThread
              (fun s iv => ctxInsert (ctxInsert s itm iv.2) idx (.integer (Int.ofNat iv.1)))
              (fun s => evalM body s) ctx items.enum).map RenderValue.vec
          | _ => .error (.render (.forTag "missing variable to iterate over" eattrs children))
        else .error (.render (.forTag "missing variable to iterate over" eattrs children))
      | _ => .error (.render (.forTag "missing variable to iterate over" eattrs children))
  | .object entries =>
    if p < 2 then .error (.render (.forTag "missing key variable to iterate over" eattrs children))
    else
      match children.get? (p - 2), children.get? (p - 1) with
      | some (.identifier kv), some (.identifier vv) =>
        (loopThread (fun s e => ctxInsert (ctxInsert s kv (.str e.1)) vv e.2)
          (fun s => evalM body s) ctx entries).map RenderValue.vec
      | _, _ => .error (.render (.forTag "missing key variable to iterate over" eattrs children))
  | _ => .error (.render (.forTag "element is not iterable" eattrs children))

mutual
/-- `Renderer::evaluate` (`src/renderer.rs`, lines 327-343), fuel
indexed: an `Identifier` goes through `expand_variable`; an integer
literal becomes `Integer`; a tag first evaluates its attribute
expressions, then dispatches on `standard_issue_functions`, falling
back to `basic_html_tag`. -/
def evaluate : Nat → TemplateExprNode → RenderContext → Res RenderValue
  | 0, _, _ => .error .outOfFuel
  | n + 1, .identifier s, ctx => expandVariable n s ctx
  | _ + 1, .integer i, _ => .ok (.integer i)
  | n + 1, .tag name attrs children, ctx => do
    let eattrs ← mapE (fun (a : TemplateExprNode × List TemplateExprNode) => do
      let k ← evaluate n a.1 ctx
      let vs ← mapE (fun e => evaluate n e ctx) a.2
      pure (finalize k, finalize (.vec vs))) attrs
    match stdFunctions name with
    | some .hHtml =>
      doHtmlF (fun es => (mapE (fun e => evaluate n e ctx) es).map RenderValue.vec)
        eattrs children
    | some .hIsSet => doIsSetF children ctx
    | some .hIf => doIfF (fun e => evaluate n e ctx) children
    | some .hSwitch => doSwitchF (fun e s => evaluate n e s) children ctx
    | some .hCase =>
      doCaseF (fun es => (mapE (fun e => evaluate n e ctx) es).map RenderValue.vec)
        children ctx
    | some .hFor =>
      doForF (fun e s => evaluate n e s)
        (fun es s => (mapE (fun e => evaluate n e s) es).map RenderValue.vec)
        eattrs children ctx
    | some .hGet => doGetF (fun e => evaluate n e ctx) children
    | some (.hCmp c) => doCmpOpF (fun e => evaluate n e ctx) c children
    | some (.hMath m) => doMathOpF (fun e => evaluate n e ctx) m children
    | none =>
      basicHtmlTagF (fun es => (mapE (fun e => evaluate n e ctx) es).map RenderValue.vec)
        name eattrs children
termination_by structural n _ _ => n

/-- `expand_variable` (`src/renderer.rs`, lines 204-257), fuel indexed.
A name not starting with the sigil is returned verbatim as `String`.
With the sigil and a `.`, the remainder is split on `.` and the
dotted-path fold is applied.  With the sigil and no `.`, the bare name
is looked up: a miss returns the original literal text (sigil
included); a `List` re-expands its `String` elements; a `Template` is
rendered with the current context; anything else converts
structurally. -/
def expandVariable : Nat → String → RenderContext → Res RenderValue
  | 0, _, _ => .error .outOfFuel
  | n + 1, s, ctx =>
    match s.data with
    | '$' :: nameChars =>
      if s.data.any (fun c => c == '.') then
        .ok (dotFold (splitDot (String.mk nameChars)) ctx (.str s))
      else
        match ctxGet ctx (String.mk nameChars) with
        | none => .ok (.str s)
        | some cv =>
          match toRV cv with
          | .vec items =>
            (mapE (fun x =>
              match x with
              | .str s2 => expandVariable n s2 ctx
              | _ => .ok x) items).map RenderValue.vec
          | .template t => (evaluate n t ctx).map (fun v => .str (finalize v))
          | v => .ok v
    | _ => .ok (.str s)
termination_by structural n _ _ => n
end

/-- `Renderer::evaluate_multiple` (`src/renderer.rs`, lines 310-316):
evaluate each node in order against the same context, collecting the
results into a `List`. -/
def evaluateMultiple (fuel : Nat) (es : List TemplateExprNode) (ctx : RenderContext) :
    Res RenderValue :=
  (mapE (fun e => evaluate fuel e ctx) es).map RenderValue.vec

/-- `Renderer::render` (`src/renderer.rs`, lines 345-347): evaluate the
template root and finalize to a string. -/
def render (fuel : Nat) (t : TemplateExprNode) (ctx : RenderContext) : Res String :=
  (evaluate fuel t ctx).map finalize

/-- Lexicographic comparison of integer lists, written as the
specification describes the `List`-`List` order (compare elementwise by
the integer order, then by length). -/
def lexCompareInt : List Int → List Int → Ordering
  | [], [] => .eq
  | [], _ :: _ => .lt
  | _ :: _, [] => .gt
  | a :: xs, b :: ys =>
    match compare a b with
    | .eq => lexCompareInt xs ys
    | o => o

/-- The kind pairings accepted by `get`: `(List, Integer)` and
`(Object, String)`. -/
def getShape : RenderValue → RenderValue → Bool
  | .vec _, .integer _ => true
  | .object _, .str _ => true
  | _, _ => false

/-! ### Facts about the key order and the sorted-map operations -/

theorem charLtB_eq_true {a b : Char} : charLtB a b = true ↔ a < b := by
  simp [charLtB]

theorem charLtB_eq_false {a b : Char} : charLtB a b = false ↔ ¬ a < b := by
  simp [charLtB]

theorem charLtB_both_false {a b : Char} (h1 : charLtB a b = false)
    (h2 : charLtB b a = false) : a = b := by
  rw [charLtB_eq_false] at h1 h2
  exact le_antisymm (not_lt.mp h2) (not_lt.mp h1)

theorem strLtB_irrefl (l : List Char) : strLtB l l = false := by
  induction l with
  | nil => rfl
  | cons a t ih => simp [strLtB, ih, charLtB]

theorem strLtB_asymm : ∀ {l m : List Char}, strLtB l m = true → strLtB m l = false
  | [], [], h => by simp [strLtB] at h
  | [], _ :: _, _ => by simp [strLtB]
  | _ :: _, [], h => by simp [strLtB] at h
  | a :: t, b :: u, h => by
    cases hab : charLtB a b with
    | true =>
      have hba : charLtB b a = false := by
        rw [charLtB_eq_false]
        exact lt_asymm (charLtB_eq_true.mp hab)
      simp [strLtB, hab, hba]
    | false =>
      cases hba : charLtB b a with
      | true => simp [strLtB, hab, hba] at h
      | false =>
        have htu : strLtB t u = true := by simpa [strLtB, hab, hba] using h
        simp [strLtB, hab, hba, strLtB_asymm htu]

theorem strLtB_both_false : ∀ {l m : List Char}, strLtB l m = false → strLtB m l = false → l = m
  | [], [], _, _ => rfl
  | [], _ :: _, h, _ => by simp [strLtB] at h
  | _ :: _, [], _, h2 => by simp [strLtB] at h2
  | a :: t, b :: u, h, h2 => by
    cases hab : charLtB a b with
    | true => simp [strLtB, hab] at h
    | false =>
      cases hba : charLtB b a with
      | true => simp [strLtB, hba] at h2
      | false =>
        have htu : strLtB t u = false := by simpa [strLtB, hab, hba] using h
        have hut : strLtB u t = false := by simpa [strLtB, hab, hba] using h2
        rw [charLtB_both_false hab hba, strLtB_both_false htu hut]

theorem strLtB_trans : ∀ {l m o : List Char},
    strLtB l m = true → strLtB m o = true → strLtB l o = true
  | [], [], _, h, _ => by simp [strLtB] at h
  | [], _ :: _, [], _, h2 => by simp [strLtB] at h2
  | [], _ :: _, _ :: _, _, _ => by simp [strLtB]
  | _ :: _, [], _, h, _ => by simp [strLtB] at h
  | _ :: _, _ :: _, [], _, h2 => by simp [strLtB] at h2
  | a :: t, b :: u, c :: w, h, h2 => by
    cases hab : charLtB a b with
    | true =>
      cases hbc : charLtB b c with
      | true =>
        have hac : charLtB a c = true := by
          rw [charLtB_eq_true]
          exact lt_trans (charLtB_eq_true.mp hab) (charLtB_eq_true.mp hbc)
        simp [strLtB, hac]
      | false =>
        cases hcb : charLtB c b with
        | true => simp [strLtB, hbc, hcb] at h2
        | false =>
          have hbceq : b = c := charLtB_both_false hbc hcb
          subst hbceq
          simp [strLtB, hab]
    | false =>
      cases hba : charLtB b a with
      | true => simp [strLtB, hab, hba] at h
      | false =>
        have habeq : a = b := charLtB_both_false hab hba
        subst habeq
        have htu : strLtB t u = true := by simpa [strLtB, hab] using h
        cases hac : charLtB a c with
        | true => simp [strLtB, hac]
        | false =>
          cases hca : charLtB c a with
          | true => simp [strLtB, hac, hca] at h2
          | false =>
            have haceq : a = c := charLtB_both_false hac hca
            subst haceq
            have huw : strLtB u w = true := by simpa [strLtB, hac] using h2
            simp [strLtB, hac, hca, strLtB_trans htu huw]

theorem keyLt_irrefl (a : String) : keyLt a a = false := strLtB_irrefl a.data

theorem keyLt_asymm {a b : String} (h : keyLt a b = true) : keyLt b a = false :=
  strLtB_asymm h

theorem keyLt_both_false {a b : String} (h1 : keyLt a b = false)
    (h2 : keyLt b a = false) : a = b := by
  cases a with
  | mk la =>
    cases b with
    | mk lb =>
      have : la = lb := strLtB_both_false h1 h2
      rw [this]

theorem keyLt_trans {a b c : String} (h1 : keyLt a b = true) (h2 : keyLt b c = true) :
    keyLt a c = true := strLtB_trans h1 h2

theorem keyLt_ne {a b : String} (h : keyLt a b = true) : a ≠ b := by
  rintro rfl
  rw [keyLt_irrefl] at h
  exact Bool.false_ne_true h

theorem keyLt_tri (a b : String) :
    (keyLt a b = true ∧ keyLt b a = false ∧ a ≠ b) ∨
    (keyLt a b = false ∧ keyLt b a = false ∧ a = b) ∨
    (keyLt a b = false ∧ keyLt b a = true ∧ a ≠ b) := by
  cases h1 : keyLt a b with
  | true => exact Or.inl ⟨rfl, keyLt_asymm h1, keyLt_ne h1⟩
  | false =>
    cases h2 : keyLt b a with
    | true => exact Or.inr (Or.inr ⟨rfl, rfl, (keyLt_ne h2).symm⟩)
    | false => exact Or.inr (Or.inl ⟨rfl, rfl, keyLt_both_false h1 h2⟩)

theorem mapLookup_mapInsert_self {α : Type} (m : List (String × α)) (k : String) (v : α) :
    mapLookup (mapInsert m k v) k = some v := by
  induction m with
  | nil => simp [mapInsert, mapLookup]
  | cons hd t ih =>
    obtain ⟨k1, v1⟩ := hd
    cases h1 : keyLt k k1 with
    | true => simp [mapInsert, h1, mapLookup]
    | false =>
      cases h2 : keyLt k1 k with
      | true =>
        have hne : k ≠ k1 := (keyLt_ne h2).symm
        simp [mapInsert, h1, h2, mapLookup, hne, ih]
      | false => simp [mapInsert, h1, h2, mapLookup]

theorem mapLookup_mapInsert_ne {α : Type} (m : List (String × α)) {k k2 : String} (v : α)
    (hne : k2 ≠ k) : mapLookup (mapInsert m k v) k2 = mapLookup m k2 := by
  induction m with
  | nil => simp [mapInsert, mapLookup, hne]
  | cons hd t ih =>
    obtain ⟨k1, v1⟩ := hd
    cases h1 : keyLt k k1 with
    | true => simp [mapInsert, h1, mapLookup, hne]
    | false =>
      cases h2 : keyLt k1 k with
      | true => simp [mapInsert, h1, h2, mapLookup, ih]
      | false =>
        have hk : k = k1 := keyLt_both_false h1 h2
        subst hk
        simp [mapInsert, h1, mapLookup, hne]

theorem mapInsert_mapInsert_self {α : Type} (m : List (String × α)) (k : String) (v w : α) :
    mapInsert (mapInsert m k v) k w = mapInsert m k w := by
  induction m with
  | nil => simp [mapInsert, keyLt_irrefl]
  | cons hd t ih =>
    obtain ⟨k1, v1⟩ := hd
    cases h1 : keyLt k k1 with
    | true => simp [mapInsert, h1, keyLt_irrefl]
    | false =>
      cases h2 : keyLt k1 k with
      | true => simp [mapInsert, h1, h2, ih]
      | false => simp [mapInsert, h1, h2, keyLt_irrefl]

theorem mapInsert_comm {α : Type} (m : List (String × α)) {k1 k2 : String} (v1 v2 : α)
    (hne : k1 ≠ k2) :
    mapInsert (mapInsert m k1 v1) k2 v2 = mapInsert (mapInsert m k2 v2) k1 v1 := by
  induction m with
  | nil =>
    rcases keyLt_tri k1 k2 with ⟨ha, hb, _⟩ | ⟨_, _, he⟩ | ⟨ha, hb, _⟩
    · simp [mapInsert, ha, hb]
    · exact absurd he hne
    · simp [mapInsert, ha, hb]
  | cons hd t ih =>
    obtain ⟨k, v⟩ := hd
    rcases keyLt_tri k1 k with ⟨a1, a2, a3⟩ | ⟨a1, a2, a3⟩ | ⟨a1, a2, a3⟩ <;>
      rcases keyLt_tri k2 k with ⟨b1, b2, b3⟩ | ⟨b1, b2, b3⟩ | ⟨b1, b2, b3⟩
    · -- k1 < k, k2 < k
      rcases keyLt_tri k1 k2 with ⟨c1, c2, _⟩ | ⟨_, _, ce⟩ | ⟨c1, c2, _⟩
      · simp [mapInsert, a1, b1, c1, c2]
      · exact absurd ce hne
      · simp [mapInsert, a1, b1, c1, c2]
    · -- k1 < k, k2 = k : k1 < k2
      subst b3
      simp [mapInsert, a1, a2, b1]
    · -- k1 < k, k < k2 : k1 < k2
      have c1 : keyLt k1 k2 = true := keyLt_trans a1 b2
      have c2 : keyLt k2 k1 = false := keyLt_asymm c1
      simp [mapInsert, a1, a2, b1, b2, c1, c2]
    · -- k1 = k, k2 < k : k2 < k1
      subst a3
      simp [mapInsert, a1, b1, b2]
    · -- k1 = k, k2 = k : contradiction
      exact absurd (a3.trans b3.symm) hne
    · -- k1 = k, k < k2
      subst a3
      simp [mapInsert, a1, b1, b2, keyLt_asymm b2]
    · -- k < k1, k2 < k : k2 < k1
      have c1 : keyLt k2 k1 = true := keyLt_trans b1 a2
      have c2 : keyLt k1 k2 = false := keyLt_asymm c1
      simp [mapInsert, a1, a2, b1, b2, c1, c2]
    · -- k < k1, k2 = k
      subst b3
      simp [mapInsert, a1, a2, b1, keyLt_asymm a2]
    · -- k < k1, k < k2
      simp [mapInsert, a1, a2, b1, b2, ih]

theorem mapInsert_over2 {α : Type} (m : List (String × α)) (k1 k2 : String) (a b c d : α) :
    mapInsert (mapInsert (mapInsert (mapInsert m k1 a) k2 b) k1 c) k2 d =
      mapInsert (mapInsert m k1 c) k2 d := by
  by_cases h : k1 = k2
  · subst h
    simp only [mapInsert_mapInsert_self]
  · rw [mapInsert_comm _ b c (Ne.symm h), mapInsert_mapInsert_self,
      mapInsert_mapInsert_self]

/-- `ctxInsert` overwrite: inserting twice under the same key keeps only
the second binding. -/
theorem ctxInsert_ctxInsert_self (ctx : RenderContext) (k : String) (v w : ContextValue) :
    ctxInsert (ctxInsert ctx k v) k w = ctxInsert ctx k w :=
  mapInsert_mapInsert_self ctx (stripSigils k) v w

/-- Two-binding overwrite for the enumerate / object iteration steps. -/
theorem ctxInsert_over2 (ctx : RenderContext) (k1 k2 : String) (a b c d : ContextValue) :
    ctxInsert (ctxInsert (ctxInsert (ctxInsert ctx k1 a) k2 b) k1 c) k2 d =
      ctxInsert (ctxInsert ctx k1 c) k2 d :=
  mapInsert_over2 ctx (stripSigils k1) (stripSigils k2) a b c d

/-! ### The iteration skeleton evaluates every body in a fresh extension
of the caller's context -/

theorem loopThread_eq_mapE {α : Type} (step : RenderContext → α → RenderContext)
    (evalBody : RenderContext → Res RenderValue)
    (hov : ∀ s a b, step (step s a) b = step s b) :
    ∀ (items : List α) (s0 s : RenderContext), (∀ a, step s a = step s0 a) →
      loopThread step evalBody s items = mapE (fun a => evalBody (step s0 a)) items := by
  intro items
  induction items with
  | nil => intro s0 s _; rfl
  | cons a rest ih =>
    intro s0 s hs
    show (do
      let r ← evalBody (step s a)
      let rs ← loopThread step evalBody (step s a) rest
      Except.ok (r :: rs)) = _
    rw [hs a, ih s0 (step s0 a) (fun b => hov s0 a b)]
    rfl

/-! ### The dotted-path fold equals its left-to-right recursive reading -/

theorem foldl_dotStep_some (segs : List String) (st : RenderContext × Option RenderValue)
    (h : st.2.isSome) : segs.foldl dotStep st = st := by
  induction segs generalizing st with
  | nil => rfl
  | cons s rest ih =>
    obtain ⟨ctx, o⟩ := st
    cases o with
    | none => simp at h
    | some v => simpa [dotStep] using ih (ctx, some v) rfl

theorem dotFold_eq_dotWalk (segs : List String) (ctx : RenderContext) (dflt : RenderValue) :
    dotFold segs ctx dflt = dotWalk segs ctx dflt := by
  induction segs generalizing ctx with
  | nil => rfl
  | cons s rest ih =>
    show dotFold (s :: rest) ctx dflt = dotWalk (s :: rest) ctx dflt
    unfold dotFold dotWalk
    rw [List.foldl_cons]
    rcases hg : ctxGet ctx s with _ | cv
    · rw [show dotStep (ctx, none) s = (ctx, some (.boolean false)) by simp [dotStep, hg]]
      rw [foldl_dotStep_some rest (ctx, some (.boolean false)) rfl]
    · cases cv with
      | object o =>
        rw [show dotStep (ctx, none) s = (o, none) by simp [dotStep, hg]]
        exact ih o
      | integer i =>
        rw [show dotStep (ctx, none) s = (ctx, some (toRV (.integer i))) by simp [dotStep, hg]]
        rw [foldl_dotStep_some rest (ctx, some (toRV (.integer i))) rfl]
      | boolean b =>
        rw [show dotStep (ctx, none) s = (ctx, some (toRV (.boolean b))) by simp [dotStep, hg]]
        rw [foldl_dotStep_some rest (ctx, some (toRV (.boolean b))) rfl]
      | str s2 =>
        rw [show dotStep (ctx, none) s = (ctx, some (toRV (.str s2))) by simp [dotStep, hg]]
        rw [foldl_dotStep_some rest (ctx, some (toRV (.str s2))) rfl]
      | vec l =>
        rw [show dotStep (ctx, none) s = (ctx, some (toRV (.vec l))) by simp [dotStep, hg]]
        rw [foldl_dotStep_some rest (ctx, some (toRV (.vec l))) rfl]
      | template t =>
        rw [show dotStep (ctx, none) s = (ctx, some (toRV (.template t))) by simp [dotStep, hg]]
        rw [foldl_dotStep_some rest (ctx, some (toRV (.template t))) rfl]

/-! ### Sorted-map invariants and insertion-order independence -/

/-- `mapInsert` preserves strict ascending key order. -/
theorem chain_mapInsert {α : Type} (k : String) (v : α) :
    ∀ (m : List (String × α)),
      List.Chain' (fun a b => keyLt a.1 b.1 = true) m →
      List.Chain' (fun a b => keyLt a.1 b.1 = true) (mapInsert m k v) := by
  intro m
  induction m with
  | nil => intro _; simp [mapInsert]
  | cons hd t ih =>
    obtain ⟨k1, v1⟩ := hd
    intro h
    have hch := List.chain'_cons'.mp h
    cases h1 : keyLt k k1 with
    | true =>
      rw [show mapInsert ((k1, v1) :: t) k v = (k, v) :: (k1, v1) :: t by
        simp [mapInsert, h1]]
      exact List.chain'_cons.mpr ⟨h1, h⟩
    | false =>
      cases h2 : keyLt k1 k with
      | true =>
        rw [show mapInsert ((k1, v1) :: t) k v = (k1, v1) :: mapInsert t k v by
          simp [mapInsert, h1, h2]]
        refine List.chain'_cons'.mpr ⟨?_, ih hch.2⟩
        intro y hy
        cases t with
        | nil =>
          simp [mapInsert] at hy
          rw [← hy]
          exact h2
        | cons hd2 t2 =>
          obtain ⟨k2, v2⟩ := hd2
          cases h3 : keyLt k k2 with
          | true =>
            simp [mapInsert, h3] at hy
            rw [← hy]
            exact h2
          | false =>
            cases h4 : keyLt k2 k with
            | true =>
              simp [mapInsert, h3, h4] at hy
              rw [← hy]
              exact hch.1 (k2, v2) rfl
            | false =>
              simp [mapInsert, h3, h4] at hy
              rw [← hy]
              exact h2
      | false =>
        have hk : k = k1 := keyLt_both_false h1 h2
        subst hk
        rw [show mapInsert ((k, v1) :: t) k v = (k, v) :: t by simp [mapInsert, h1]]
        exact List.chain'_cons'.mpr ⟨fun y hy => hch.1 y hy, hch.2⟩

/-- The keys of a context built by repeated `RenderContext::insert` are
in strict ascending lexicographic order. -/
theorem chain_ctxOfInserts (kvs : List (String × ContextValue)) :
    List.Chain' (fun a b => keyLt a.1 b.1 = true) (ctxOfInserts kvs) := by
  have h : ∀ (m : RenderContext), List.Chain' (fun a b => keyLt a.1 b.1 = true) m →
      List.Chain' (fun a b => keyLt a.1 b.1 = true)
        (kvs.foldl (fun m kv => ctxInsert m kv.1 kv.2) m) := by
    induction kvs with
    | nil => intro m hm; exact hm
    | cons a t ih =>
      intro m hm
      exact ih _ (chain_mapInsert _ _ m hm)
  exact h [] List.chain'_nil

/-- Two insertion sequences that are permutations of each other, with
pairwise distinct (sigil-stripped) keys, build the same context. -/
theorem foldl_ctxInsert_perm {kvs1 kvs2 : List (String × ContextValue)}
    (hperm : kvs1.Perm kvs2) :
    (kvs1.map (fun kv => stripSigils kv.1)).Nodup →
    ∀ m : RenderContext,
      kvs1.foldl (fun m kv => ctxInsert m kv.1 kv.2) m =
        kvs2.foldl (fun m kv => ctxInsert m kv.1 kv.2) m := by
  induction hperm with
  | nil => intro _ m; rfl
  | cons x h ih =>
    intro hnd m
    rw [List.map_cons] at hnd
    simp only [List.foldl_cons]
    exact ih hnd.of_cons _
  | swap x y l =>
    intro hnd m
    rw [List.map_cons, List.map_cons] at hnd
    simp only [List.foldl_cons]
    have hxy : stripSigils y.1 ≠ stripSigils x.1 := by
      intro he
      exact (List.nodup_cons.mp hnd).1 (he ▸ List.mem_cons_self _ _)
    have hcomm : ctxInsert (ctxInsert m y.1 y.2) x.1 x.2 =
        ctxInsert (ctxInsert m x.1 x.2) y.1 y.2 :=
      mapInsert_comm m y.2 x.2 hxy
    rw [hcomm]
  | trans h1 h2 ih1 ih2 =>
    intro hnd m
    rw [ih1 hnd m, ih2 ((h1.map (fun kv => stripSigils kv.1)).nodup_iff.mp hnd) m]

/-! ### The synthetic range list -/

theorem rangeListAux_congr {step : Int} (hstep : 0 < step) :
    ∀ (f1 f2 : Nat) (lo hi : Int), (hi - lo).toNat ≤ f1 → (hi - lo).toNat ≤ f2 →
      rangeListAux step lo hi f1 = rangeListAux step lo hi f2 := by
  intro f1
  induction f1 with
  | zero =>
    intro f2 lo hi h1 h2
    have hlt : ¬ lo < hi := by omega
    cases f2 with
    | zero => rfl
    | succ f2 => simp [rangeListAux, hlt]
  | succ f1 ih =>
    intro f2 lo hi h1 h2
    cases f2 with
    | zero =>
      have hlt : ¬ lo < hi := by omega
      simp [rangeListAux, hlt]
    | succ f2 =>
      by_cases hlt : lo < hi
      · simp only [rangeListAux, if_pos hlt]
        rw [ih f2 (lo + step) hi (by omega) (by omega)]
      · simp [rangeListAux, hlt]

theorem rangeList_cons {lo hi step : Int} (hstep : 0 < step) (hlt : lo < hi) :
    rangeList lo hi step = lo :: rangeList (lo + step) hi step := by
  unfold rangeList
  rw [if_pos hstep, if_pos hstep]
  rcases hn : (hi - lo).toNat with _ | n
  · omega
  · simp only [rangeListAux, if_pos hlt]
    rw [rangeListAux_congr hstep n ((hi - (lo + step)).toNat) (lo + step) hi (by omega)
      (by omega)]

theorem rangeList_nil {lo hi step : Int} (h : ¬ lo < hi ∨ ¬ 0 < step) :
    rangeList lo hi step = [] := by
  unfold rangeList
  rcases h with h | h
  · have : (hi - lo).toNat = 0 := by omega
    rw [this]
    simp [rangeListAux]
  · rw [if_neg h]

/-- The number of range elements is the ceiling of `(hi - lo) / step`
when `lo ≤ hi` and `0 < step` (computed as `(hi - lo + step - 1) / step`
in Euclidean division). -/
theorem rangeList_length {step : Int} (hstep : 0 < step) :
    ∀ (fuel : Nat) (lo hi : Int), (hi - lo).toNat ≤ fuel → lo ≤ hi →
      ((rangeList lo hi step).length : Int) = (hi - lo + step - 1) / step := by
  intro fuel
  induction fuel with
  | zero =>
    intro lo hi hf hle
    have heq : lo = hi := by omega
    subst heq
    rw [rangeList_nil (Or.inl (by omega))]
    simp only [List.length_nil, Nat.cast_zero]
    rw [Int.ediv_eq_zero_of_lt (by omega) (by omega)]
  | succ fuel ih =>
    intro lo hi hf hle
    by_cases hlt : lo < hi
    · rw [rangeList_cons hstep hlt]
      by_cases hl2 : lo + step ≤ hi
      · have htail := ih (lo + step) hi (by omega) hl2
        simp only [List.length_cons]
        push_cast
        rw [htail]
        have h9 : hi - lo + step - 1 = (hi - (lo + step) + step - 1) + 1 * step := by ring
        rw [h9, Int.add_mul_ediv_right _ _ (by omega : step ≠ 0)]
      · rw [rangeList_nil (Or.inl (by omega))]
        simp only [List.length_cons, List.length_nil]
        have h9 : hi - lo + step - 1 = (hi - lo - 1) + 1 * step := by ring
        rw [h9, Int.add_mul_ediv_right _ _ (by omega : step ≠ 0),
          Int.ediv_eq_zero_of_lt (by omega) (by omega)]
        simp
    · have heq : lo = hi := by omega
      subst heq
      rw [rangeList_nil (Or.inl (by omega))]
      simp only [List.length_nil, Nat.cast_zero]
      rw [Int.ediv_eq_zero_of_lt (by omega) (by omega)]

/-- Every range element lies in `[lo, hi)`. -/
theorem rangeList_mem {step : Int} (hstep : 0 < step) :
    ∀ (fuel : Nat) (lo hi : Int), (hi - lo).toNat ≤ fuel →
      ∀ v ∈ rangeList lo hi step, lo ≤ v ∧ v < hi := by
  intro fuel
  induction fuel with
  | zero =>
    intro lo hi hf v hv
    rw [rangeList_nil (Or.inl (by omega))] at hv
    simp at hv
  | succ fuel ih =>
    intro lo hi hf v hv
    by_cases hlt : lo < hi
    · rw [rangeList_cons hstep hlt] at hv
      rcases List.mem_cons.mp hv with rfl | hv2
      · exact ⟨le_refl _, hlt⟩
      · have := ih (lo + step) hi (by omega) v hv2
        exact ⟨by omega, this.2⟩
    · rw [rangeList_nil (Or.inl hlt)] at hv
      simp at hv

/-- The range starts at `lo` when it is non-empty. -/
theorem rangeList_head {lo hi step : Int} (hstep : 0 < step) (hlt : lo < hi) :
    (rangeList lo hi step).head? = some lo := by
  rw [rangeList_cons hstep hlt]
  rfl

/-- The range elements are strictly increasing. -/
theorem rangeList_chain {step : Int} (hstep : 0 < step) :
    ∀ (fuel : Nat) (lo hi : Int), (hi - lo).toNat ≤ fuel →
      List.Chain' (· < ·) (rangeList lo hi step) := by
  intro fuel
  induction fuel with
  | zero =>
    intro lo hi hf
    rw [rangeList_nil (Or.inl (by omega))]
    exact List.chain'_nil
  | succ fuel ih =>
    intro lo hi hf
    by_cases hlt : lo < hi
    · rw [rangeList_cons hstep hlt]
      refine List.chain'_cons'.mpr ⟨?_, ih (lo + step) hi (by omega)⟩
      intro y hy
      by_cases hlt2 : lo + step < hi
      · rw [rangeList_head hstep hlt2] at hy
        have hy2 : lo + step = y := by simpa using hy
        omega
      · rw [rangeList_nil (Or.inl hlt2)] at hy
        simp at hy
    · rw [rangeList_nil (Or.inl hlt)]
      exact List.chain'_nil

/-! ### One-step unfoldings of the evaluator -/

theorem ok_bind {α β : Type} (a : α) (f : α → Res β) : (Except.ok a >>= f) = f a := rfl

theorem error_bind {α β : Type} (e : EvalErr) (f : α → Res β) :
    ((Except.error e : Res α) >>= f) = .error e := rfl

theorem pure_bindE {α β : Type} (a : α) (f : α → Res β) : (pure a >>= f : Res β) = f a := rfl

theorem evaluate_zero (e : TemplateExprNode) (ctx : RenderContext) :
    evaluate 0 e ctx = .error .outOfFuel := rfl

theorem evaluate_ident (n : Nat) (s : String) (ctx : RenderContext) :
    evaluate (n + 1) (.identifier s) ctx = expandVariable n s ctx := rfl

theorem evaluate_int (n : Nat) (i : Int) (ctx : RenderContext) :
    evaluate (n + 1) (.integer i) ctx = .ok (.integer i) := rfl

theorem evaluate_isSetTag (n : Nat) (ch : List TemplateExprNode) (ctx : RenderContext) :
    evaluate (n + 1) (.tag "is-set" [] ch) ctx = doIsSetF ch ctx := rfl

theorem evaluate_ifTag (n : Nat) (ch : List TemplateExprNode) (ctx : RenderContext) :
    evaluate (n + 1) (.tag "if" [] ch) ctx = doIfF (fun e => evaluate n e ctx) ch := rfl

theorem evaluate_switchTag (n : Nat) (ch : List TemplateExprNode) (ctx : RenderContext) :
    evaluate (n + 1) (.tag "switch" [] ch) ctx =
      doSwitchF (fun e s => evaluate n e s) ch ctx := rfl

theorem evaluate_forTag (n : Nat) (ch : List TemplateExprNode) (ctx : RenderContext) :
    evaluate (n + 1) (.tag "for" [] ch) ctx =
      doForF (fun e s => evaluate n e s) (fun es s => evaluateMultiple n es s) [] ch ctx := rfl

theorem evaluate_getTag (n : Nat) (ch : List TemplateExprNode) (ctx : RenderContext) :
    evaluate (n + 1) (.tag "get" [] ch) ctx = doGetF (fun e => evaluate n e ctx) ch := rfl

theorem evaluate_eqTag (n : Nat) (ch : List TemplateExprNode) (ctx : RenderContext) :
    evaluate (n + 1) (.tag "eq" [] ch) ctx =
      doCmpOpF (fun e => evaluate n e ctx) .ceq ch := rfl

theorem evaluate_neTag (n : Nat) (ch : List TemplateExprNode) (ctx : RenderContext) :
    evaluate (n + 1) (.tag "ne" [] ch) ctx =
      doCmpOpF (fun e => evaluate n e ctx) .cne ch := rfl

theorem evaluate_ltTag (n : Nat) (ch : List TemplateExprNode) (ctx : RenderContext) :
    evaluate (n + 1) (.tag "lt" [] ch) ctx =
      doCmpOpF (fun e => evaluate n e ctx) .clt ch := rfl

theorem evaluate_gtTag (n : Nat) (ch : List TemplateExprNode) (ctx : RenderContext) :
    evaluate (n + 1) (.tag "gt" [] ch) ctx =
      doCmpOpF (fun e => evaluate n e ctx) .cgt ch := rfl

theorem evaluate_lteTag (n : Nat) (ch : List TemplateExprNode) (ctx : RenderContext) :
    evaluate (n + 1) (.tag "lte" [] ch) ctx =
      doCmpOpF (fun e => evaluate n e ctx) .cle ch := rfl

theorem evaluate_gteTag (n : Nat) (ch : List TemplateExprNode) (ctx : RenderContext) :
    evaluate (n + 1) (.tag "gte" [] ch) ctx =
      doCmpOpF (fun e => evaluate n e ctx) .cge ch := rfl

theorem evaluate_mathTag (n : Nat) (m : MathOp) (ch : List TemplateExprNode)
    (ctx : RenderContext) :
    evaluate (n + 1) (.tag (mathName m) [] ch) ctx =
      doMathOpF (fun e => evaluate n e ctx) m ch := by
  cases m <;> rfl

theorem doCmpOpF_pair (evalE : TemplateExprNode → Res RenderValue) (c : CmpKind)
    (c0 c1 : TemplateExprNode) :
    doCmpOpF evalE c [c0, c1] = (do
      let v0 ← evalE c0
      let v1 ← evalE c1
      .ok (.boolean (cmpFn c v0 v1))) := rfl

theorem doMathOpF_pair (evalE : TemplateExprNode → Res RenderValue) (m : MathOp)
    (c0 c1 : TemplateExprNode) :
    doMathOpF evalE m [c0, c1] = (do
      let v0 ← evalE c0
      let v1 ← evalE c1
      match v0, v1 with
      | .integer a, .integer b =>
        match m with
        | .add => .ok (.integer (wrap64 (a + b)))
        | .sub => .ok (.integer (wrap64 (a - b)))
        | .mul => .ok (.integer (wrap64 (a * b)))
        | .div => if b = 0 then .error .panic else .ok (.integer (wrap64 (Int.tdiv a b)))
        | .mod => if b = 0 then .error .panic else .ok (.integer (Int.tmod a b))
      | _, _ => .error (.render (.math "operand is not an integer" [c0, c1]))) := rfl

theorem doGetF_pair (evalE : TemplateExprNode → Res RenderValue) (c0 c1 : TemplateExprNode) :
    doGetF evalE [c0, c1] = (do
      let v0 ← evalE c0
      let v1 ← evalE c1
      match v0, v1 with
      | .vec items, .integer i =>
        if 0 ≤ i then
          match items.get? i.toNat with
          | some x => .ok x
          | none => .error (.render (.getTag "out of bounds" [c0, c1]))
        else .error (.render (.getTag "out of bounds" [c0, c1]))
      | .object entries, .str s =>
        match mapLookup entries s with
        | some x => .ok x
        | none => .error (.render (.getTag "member not found" [c0, c1]))
      | _, _ => .error (.render (.getTag "invalid index or indexable" [c0, c1]))) := rfl

/-! ### Unfoldings and helpers for variable expansion and contexts -/

theorem dollar_append (nm : String) : "$" ++ nm = String.mk ('$' :: nm.data) := by
  obtain ⟨l⟩ := nm
  rfl

theorem expandVariable_dollar (n : Nat) (l : List Char) (ctx : RenderContext) :
    expandVariable (n + 1) (String.mk ('$' :: l)) ctx =
      (if ('$' :: l).any (fun c => c == '.') then
        .ok (dotFold (splitDot (String.mk l)) ctx (.str (String.mk ('$' :: l))))
      else
        match ctxGet ctx (String.mk l) with
        | none => .ok (.str (String.mk ('$' :: l)))
        | some cv =>
          match toRV cv with
          | .vec items =>
            (mapE (fun x => match x with
              | .str s2 => expandVariable n s2 ctx
              | _ => .ok x) items).map RenderValue.vec
          | .template t => (evaluate n t ctx).map (fun v => .str (finalize v))
          | v => .ok v) := rfl

theorem any_dot_dollar (l : List Char) :
    ('$' :: l).any (fun c => c == '.') = l.any (fun c => c == '.') := by
  simp [List.any_cons]

theorem stripSigils_of_no_sigil (k : String) (hk : k.data.head? ≠ some '$') :
    stripSigils k = k := by
  obtain ⟨l⟩ := k
  cases l with
  | nil => rfl
  | cons c cs =>
    have hc : c ≠ '$' := by
      intro he
      exact hk (by simp [he])
    have hcb : (c == '$') = false := beq_eq_false_iff_ne.mpr hc
    simp [stripSigils, List.dropWhile, hcb]

theorem stripSigils_dollar (k : String) : stripSigils ("$" ++ k) = stripSigils k := by
  obtain ⟨l⟩ := k
  rfl

/-! ### Characterizations of the `for` and `switch` builtins -/

theorem mapE_enumFrom {α β : Type} (g : α → Res β) :
    ∀ (l : List α) (k : Nat),
      mapE (fun iv : Nat × α => g iv.2) (List.enumFrom k l) = mapE g l := by
  intro l
  induction l with
  | nil => intro k; rfl
  | cons a t ih =>
    intro k
    show (do
      let b ← g a
      let bs ← mapE (fun iv : Nat × α => g iv.2) (List.enumFrom (k + 1) t)
      Except.ok (b :: bs)) = _
    rw [ih (k + 1)]
    rfl

theorem findIdx_head_not_in (x : String) (hx : (x == "in") = false)
    (rest : List TemplateExprNode) :
    (TemplateExprNode.identifier x :: .identifier "in" :: rest).findIdx? isInIdent =
      some 1 := by
  simp [List.findIdx?_cons, isInIdent, hx]

theorem findIdx_tag_not_in (nm : String) (attrs : List (TemplateExprNode × List TemplateExprNode))
    (ech : List TemplateExprNode) (rest : List TemplateExprNode) :
    (TemplateExprNode.tag nm attrs ech :: .identifier "in" :: rest).findIdx? isInIdent =
      some 1 := by
  simp [List.findIdx?_cons, isInIdent]

theorem findIdx_two_not_in (x y : String) (hx : (x == "in") = false)
    (hy : (y == "in") = false) (rest : List TemplateExprNode) :
    (TemplateExprNode.identifier x :: .identifier y :: .identifier "in" :: rest).findIdx?
      isInIdent = some 2 := by
  simp [List.findIdx?_cons, isInIdent, hx, hy]

/-- `for x in $it body` over a `List`: the body is evaluated once per
element, in order, in a copy of the caller's context extended with the
loop binding; the caller's context itself is reused unchanged for every
iteration. -/
theorem doFor_list_eq (n : Nat) (ctx : RenderContext) (x it : String)
    (elems : List ContextValue) (body : List TemplateExprNode)
    (hx : (x == "in") = false) (hget : ctxGet ctx it = some (.vec elems)) :
    evaluate (n + 1)
      (.tag "for" [] (.identifier x :: .identifier "in" :: .identifier it :: body)) ctx =
      (mapE (fun v => evaluateMultiple n body (ctxInsert ctx x v)) elems).map
        RenderValue.vec := by
  rw [evaluate_forTag]
  unfold doForF
  rw [findIdx_head_not_in x hx]
  simp only [pure_bindE]
  rw [show (TemplateExprNode.identifier x :: .identifier "in" :: .identifier it ::
    body).get? (1 + 1) = some (TemplateExprNode.identifier it) from rfl]
  dsimp only
  rw [hget]
  simp only [pure_bindE]
  show (loopThread (fun s iv => ctxInsert s x iv.2)
      (fun s => evaluateMultiple n body s) ctx elems.enum).map RenderValue.vec = _
  rw [loopThread_eq_mapE (fun s iv => ctxInsert s x iv.2)
    (fun s => evaluateMultiple n body s)
    (fun s a b => ctxInsert_ctxInsert_self s x a.2 b.2) elems.enum ctx ctx
    (fun _ => rfl)]
  rw [show elems.enum = List.enumFrom 0 elems from rfl]
  rw [mapE_enumFrom (fun v => evaluateMultiple n body (ctxInsert ctx x v)) elems 0]

/-- `for (enumerate idx itm) in $it body` over a `List`: the body is
evaluated once per `(index, element)` pair, in order, in a copy of the
caller's context extended with the two loop bindings. -/
theorem doFor_enum_eq (n : Nat) (ctx : RenderContext) (idx itm it : String)
    (elems : List ContextValue) (body : List TemplateExprNode)
    (hget : ctxGet ctx it = some (.vec elems)) :
    evaluate (n + 1)
      (.tag "for" []
        (.tag "enumerate" [] [.identifier idx, .identifier itm] ::
          .identifier "in" :: .identifier it :: body)) ctx =
      (mapE (fun iv : Nat × ContextValue => evaluateMultiple n body
          (ctxInsert (ctxInsert ctx itm iv.2) idx (.integer (Int.ofNat iv.1))))
        elems.enum).map RenderValue.vec := by
  rw [evaluate_forTag]
  unfold doForF
  rw [findIdx_tag_not_in]
  simp only [pure_bindE]
  rw [show (TemplateExprNode.tag "enumerate" [] [.identifier idx, .identifier itm] ::
    .identifier "in" :: .identifier it :: body).get? (1 + 1) =
    some (TemplateExprNode.identifier it) from rfl]
  dsimp only
  rw [hget]
  simp only [pure_bindE]
  show (loopThread
      (fun s iv => ctxInsert (ctxInsert s itm iv.2) idx (.integer (Int.ofNat iv.1)))
      (fun s => evaluateMultiple n body s) ctx elems.enum).map RenderValue.vec = _
  rw [loopThread_eq_mapE
    (fun s iv => ctxInsert (ctxInsert s itm iv.2) idx (.integer (Int.ofNat iv.1)))
    (fun s => evaluateMultiple n body s)
    (fun s a b => ctxInsert_over2 s itm idx a.2 (.integer (Int.ofNat a.1)) b.2
      (.integer (Int.ofNat b.1))) elems.enum ctx ctx (fun _ => rfl)]

/-- `for kv vv in $it body` over an `Object`: the body is evaluated once
per stored entry, in the object's stored order, in a copy of the
caller's context extended with the key and value bindings. -/
theorem doFor_object_eq (n : Nat) (ctx : RenderContext) (kv vv it : String)
    (entries : List (String × ContextValue)) (body : List TemplateExprNode)
    (hkv : (kv == "in") = false) (hvv : (vv == "in") = false)
    (hget : ctxGet ctx it = some (.object entries)) :
    evaluate (n + 1)
      (.tag "for" []
        (.identifier kv :: .identifier vv :: .identifier "in" :: .identifier it :: body))
      ctx =
      (mapE (fun e : String × ContextValue => evaluateMultiple n body
          (ctxInsert (ctxInsert ctx kv (.str e.1)) vv e.2)) entries).map
        RenderValue.vec := by
  rw [evaluate_forTag]
  unfold doForF
  rw [findIdx_two_not_in kv vv hkv hvv]
  simp only [pure_bindE]
  rw [show (TemplateExprNode.identifier kv :: .identifier vv :: .identifier "in" ::
    .identifier it :: body).get? (2 + 1) = some (TemplateExprNode.identifier it) from rfl]
  dsimp only
  rw [hget]
  simp only [pure_bindE]
  show (loopThread (fun s e => ctxInsert (ctxInsert s kv (.str e.1)) vv e.2)
      (fun s => evaluateMultiple n body s) ctx entries).map RenderValue.vec = _
  rw [loopThread_eq_mapE
    (fun s e => ctxInsert (ctxInsert s kv (.str e.1)) vv e.2)
    (fun s => evaluateMultiple n body s)
    (fun s a b => ctxInsert_over2 s kv vv (.str a.1) a.2 (.str b.1) b.2)
    entries ctx ctx (fun _ => rfl)]

/-- `for x in (range e1 e2) body`: the range children are evaluated to
integers and the loop runs over the synthetic range list with the
default step `1`. -/
theorem doFor_range_eq (n : Nat) (ctx : RenderContext) (x : String)
    (body : List TemplateExprNode) (e1 e2 : TemplateExprNode) (lo hi : Int)
    (hx : (x == "in") = false)
    (h1 : evaluate n e1 ctx = .ok (.integer lo))
    (h2 : evaluate n e2 ctx = .ok (.integer hi)) :
    evaluate (n + 1)
      (.tag "for" []
        (.identifier x :: .identifier "in" :: .tag "range" [] [e1, e2] :: body)) ctx =
      (mapE (fun v => evaluateMultiple n body (ctxInsert ctx x v))
        ((rangeList lo hi 1).map ContextValue.integer)).map RenderValue.vec := by
  rw [evaluate_forTag]
  unfold doForF parseRangeF
  rw [findIdx_head_not_in x hx]
  simp only [pure_bindE]
  rw [show ((TemplateExprNode.identifier x :: .identifier "in" ::
      .tag "range" [] [e1, e2] :: body).get? (1 + 1)) =
    some (TemplateExprNode.tag "range" [] [e1, e2]) from rfl]
  dsimp only
  rw [if_pos rfl]
  rw [show ([e1, e2].head? : Option TemplateExprNode) = some e1 from rfl]
  rw [show ([e1, e2].get? 1 : Option TemplateExprNode) = some e2 from rfl]
  rw [show ([e1, e2].get? 2 : Option TemplateExprNode) = none from rfl]
  dsimp only
  rw [h1]
  simp only [ok_bind, pure_bindE, rangeAsInt]
  rw [h2]
  simp only [ok_bind, pure_bindE, rangeAsInt]
  show (loopThread (fun s iv => ctxInsert s x iv.2)
      (fun s => evaluateMultiple n body s) ctx
      ((rangeList lo hi 1).map ContextValue.integer).enum).map RenderValue.vec = _
  rw [loopThread_eq_mapE (fun s iv => ctxInsert s x iv.2)
    (fun s => evaluateMultiple n body s)
    (fun s a b => ctxInsert_ctxInsert_self s x a.2 b.2)
    ((rangeList lo hi 1).map ContextValue.integer).enum ctx ctx (fun _ => rfl)]
  rw [show ((rangeList lo hi 1).map ContextValue.integer).enum =
    List.enumFrom 0 ((rangeList lo hi 1).map ContextValue.integer) from rfl]
  rw [mapE_enumFrom (fun v => evaluateMultiple n body (ctxInsert ctx x v))]

/-- `for x in (range e1 e2 e3) body` with an explicit step child. -/
theorem doFor_range_step_eq (n : Nat) (ctx : RenderContext) (x : String)
    (body : List TemplateExprNode) (e1 e2 e3 : TemplateExprNode) (lo hi st : Int)
    (hx : (x == "in") = false)
    (h1 : evaluate n e1 ctx = .ok (.integer lo))
    (h2 : evaluate n e2 ctx = .ok (.integer hi))
    (h3 : evaluate n e3 ctx = .ok (.integer st)) :
    evaluate (n + 1)
      (.tag "for" []
        (.identifier x :: .identifier "in" :: .tag "range" [] [e1, e2, e3] :: body)) ctx =
      (mapE (fun v => evaluateMultiple n body (ctxInsert ctx x v))
        ((rangeList lo hi st).map ContextValue.integer)).map RenderValue.vec := by
  rw [evaluate_forTag]
  unfold doForF parseRangeF
  rw [findIdx_head_not_in x hx]
  simp only [pure_bindE]
  rw [show ((TemplateExprNode.identifier x :: .identifier "in" ::
      .tag "range" [] [e1, e2, e3] :: body).get? (1 + 1)) =
    some (TemplateExprNode.tag "range" [] [e1, e2, e3]) from rfl]
  dsimp only
  rw [if_pos rfl]
  rw [show ([e1, e2, e3].head? : Option TemplateExprNode) = some e1 from rfl]
  rw [show ([e1, e2, e3].get? 1 : Option TemplateExprNode) = some e2 from rfl]
  rw [show ([e1, e2, e3].get? 2 : Option TemplateExprNode) = some e3 from rfl]
  dsimp only
  rw [h1]
  simp only [ok_bind, pure_bindE, rangeAsInt]
  rw [h2]
  simp only [ok_bind, pure_bindE, rangeAsInt]
  rw [h3]
  simp only [ok_bind, pure_bindE, rangeAsInt]
  show (loopThread (fun s iv => ctxInsert s x iv.2)
      (fun s => evaluateMultiple n body s) ctx
      ((rangeList lo hi st).map ContextValue.integer).enum).map RenderValue.vec = _
  rw [loopThread_eq_mapE (fun s iv => ctxInsert s x iv.2)
    (fun s => evaluateMultiple n body s)
    (fun s a b => ctxInsert_ctxInsert_self s x a.2 b.2)
    ((rangeList lo hi st).map ContextValue.integer).enum ctx ctx (fun _ => rfl)]
  rw [show ((rangeList lo hi st).map ContextValue.integer).enum =
    List.enumFrom 0 ((rangeList lo hi st).map ContextValue.integer) from rfl]
  rw [mapE_enumFrom (fun v => evaluateMultiple n body (ctxInsert ctx x v))]

/-- `switch`: every case child is evaluated against one copy of the
caller's context carrying the hidden `__switch` binding. -/
theorem doSwitch_eq (n : Nat) (ctx : RenderContext) (c0 : TemplateExprNode)
    (cases1 : List TemplateExprNode) (v : RenderValue)
    (hv : evaluate n c0 ctx = .ok v) :
    evaluate (n + 1) (.tag "switch" [] (c0 :: cases1)) ctx =
      (mapE (fun cs => evaluate n cs (ctxInsert ctx "__switch" (.str (finalize v))))
        cases1).map RenderValue.vec := by
  rw [evaluate_switchTag]
  simp only [doSwitchF, List.head?, pure_bindE]
  rw [hv, ok_bind]
  rfl

/-! ### Claim theorems -/

/-- C2: expanding an `Identifier` that starts with `$`: a name with no
`.` that is unbound yields the original literal text, sigil included,
as a `String`; a name with `.` is split on `.` and walked left to
right, where a missing segment yields `Boolean(false)` and a present
non-`Object` segment value is returned immediately with the remaining
segments never consulted. -/
theorem c2_expand_variable :
    (∀ (n : Nat) (ctx : RenderContext) (nm : String),
      nm.data.any (fun c => c == '.') = false →
      ctxGet ctx nm = none →
      expandVariable (n + 1) ("$" ++ nm) ctx = .ok (.str ("$" ++ nm))) ∧
    (∀ (n : Nat) (ctx : RenderContext) (nm : String),
      nm.data.any (fun c => c == '.') = true →
      expandVariable (n + 1) ("$" ++ nm) ctx =
        .ok (dotWalk (splitDot nm) ctx (.str ("$" ++ nm)))) ∧
    (∀ (ctx : RenderContext) (s : String) (segs : List String) (dflt : RenderValue)
        (v : ContextValue), ctxGet ctx s = some v → (∀ o, v ≠ .object o) →
      dotWalk (s :: segs) ctx dflt = toRV v) ∧
    (∀ (ctx : RenderContext) (s : String) (segs : List String) (dflt : RenderValue),
      ctxGet ctx s = none → dotWalk (s :: segs) ctx dflt = .boolean false) := by
  refine ⟨?_, ?_, ?_, ?_⟩
  · intro n ctx nm hno hget
    obtain ⟨l⟩ := nm
    rw [dollar_append, expandVariable_dollar, any_dot_dollar]
    have hno2 : (List.any l fun c => c == '.') = false := hno
    rw [hno2]
    have hget2 : ctxGet ctx (String.mk l) = none := hget
    simp only [Bool.false_eq_true, if_false, hget2]
  · intro n ctx nm hyes
    obtain ⟨l⟩ := nm
    rw [dollar_append, expandVariable_dollar, any_dot_dollar]
    have hyes2 : (List.any l fun c => c == '.') = true := hyes
    rw [hyes2, if_pos rfl, dotFold_eq_dotWalk]
  · intro ctx s segs dflt v hget hno
    cases v with
    | object o => exact absurd rfl (hno o)
    | integer i => simp [dotWalk, hget]
    | boolean b => simp [dotWalk, hget]
    | str s2 => simp [dotWalk, hget]
    | vec items => simp [dotWalk, hget]
    | template t => simp [dotWalk, hget]
  · intro ctx s segs dflt hget
    simp [dotWalk, hget]

/-- C2 witness: concrete instances — an unbound sigilled name renders
literally; a dotted path with a missing second segment yields
`Boolean(false)`; a dotted walk stops at a non-`Object` value; a
missing first segment yields `Boolean(false)`. -/
theorem c2_expand_variable_witness :
    expandVariable 1 ("$" ++ "zz") [] = .ok (.str "$zz") ∧
    expandVariable 1 ("$" ++ "a.b") (ctxOfInserts [("a", .object [])]) =
      .ok (.boolean false) ∧
    dotWalk ("a" :: ["b", "c"]) (ctxOfInserts [("a", .str "X")]) (.str "d") =
      toRV (.str "X") ∧
    dotWalk ("q" :: ["r"]) [] (.str "d") = .boolean false := by
  refine ⟨?_, ?_, ?_, ?_⟩
  · exact c2_expand_variable.1 0 [] "zz" rfl rfl
  · rw [c2_expand_variable.2.1 0 (ctxOfInserts [("a", .object [])]) "a.b" rfl]
    rfl
  · exact c2_expand_variable.2.2.1 (ctxOfInserts [("a", .str "X")]) "a" ["b", "c"]
      (.str "d") (.str "X") rfl (fun _ h => ContextValue.noConfusion h)
  · exact c2_expand_variable.2.2.2 [] "q" ["r"] (.str "d") rfl

/-- C9 counterexample: the claim fails for the fluent builder's insert
path — inserting under the sigilled spelling through
`RenderContextBuilder::insert` stores the key verbatim, so `get` (which
strips the sigil) cannot retrieve it. -/
theorem c9_builder_sigil_counterexample :
    ¬ (ctxGet (builderBuild (builderInsert [] ("$" ++ "a") (.integer 1))) "a" =
        some (.integer 1)) := fun h => Option.noConfusion h

/-- C9 (amended): `RenderContext::insert` and `RenderContext::get` both
strip the leading sigil, so for a key with no leading `$` the sigilled
and unsigilled spellings are interchangeable through that path; the
fluent builder's insert stores the key verbatim, so builder-inserted
values are retrievable through `get` (under either spelling) only when
the key was inserted without the sigil. -/
theorem c9_sigil_stripping_amended (ctx : RenderContext)
    (b : List (String × ContextValue)) (k : String) (v : ContextValue)
    (hk : k.data.head? ≠ some '$') :
    (ctxGet (ctxInsert ctx k v) k = some v ∧
     ctxGet (ctxInsert ctx k v) ("$" ++ k) = some v ∧
     ctxGet (ctxInsert ctx ("$" ++ k) v) k = some v ∧
     ctxGet (ctxInsert ctx ("$" ++ k) v) ("$" ++ k) = some v) ∧
    (ctxGet (builderBuild (builderInsert b k v)) k = some v ∧
     ctxGet (builderBuild (builderInsert b k v)) ("$" ++ k) = some v) := by
  have hs : stripSigils k = k := stripSigils_of_no_sigil k hk
  have hd : stripSigils ("$" ++ k) = k := (stripSigils_dollar k).trans hs
  refine ⟨⟨?_, ?_, ?_, ?_⟩, ?_, ?_⟩
  · simp only [ctxGet, ctxInsert, hs]
    exact mapLookup_mapInsert_self ctx k v
  · simp only [ctxGet, ctxInsert, hs, hd]
    exact mapLookup_mapInsert_self ctx k v
  · simp only [ctxGet, ctxInsert, hs, hd]
    exact mapLookup_mapInsert_self ctx k v
  · simp only [ctxGet, ctxInsert, hs, hd]
    exact mapLookup_mapInsert_self ctx k v
  · simp only [ctxGet, builderBuild, builderInsert, hs]
    exact mapLookup_mapInsert_self b k v
  · simp only [ctxGet, builderBuild, builderInsert, hd]
    exact mapLookup_mapInsert_self b k v

/-- C9 witness: the amended claim at a concrete key and value. -/
theorem c9_sigil_stripping_amended_witness :
    (ctxGet (ctxInsert [] "a" (.integer 7)) "a" = some (.integer 7) ∧
     ctxGet (ctxInsert [] "a" (.integer 7)) ("$" ++ "a") = some (.integer 7) ∧
     ctxGet (ctxInsert [] ("$" ++ "a") (.integer 7)) "a" = some (.integer 7) ∧
     ctxGet (ctxInsert [] ("$" ++ "a") (.integer 7)) ("$" ++ "a") = some (.integer 7)) ∧
    (ctxGet (builderBuild (builderInsert [] "a" (.integer 7))) "a" = some (.integer 7) ∧
     ctxGet (builderBuild (builderInsert [] "a" (.integer 7))) ("$" ++ "a") =
       some (.integer 7)) :=
  c9_sigil_stripping_amended [] [] "a" (.integer 7) (by decide)

/-- C4: evaluating `(is-set $x)` returns `Boolean(true)` iff `x` is
bound to any value in the context, regardless of the kind of that
value, and `Boolean(false)` when `x` is unbound; it fails with an
`IsSet` error when the single child is not an `Identifier`. -/
theorem c4_is_set :
    (∀ (n : Nat) (ctx : RenderContext) (x : String) (rest : List TemplateExprNode)
        (v : ContextValue), ctxGet ctx x = some v →
      evaluate (n + 1) (.tag "is-set" [] (.identifier x :: rest)) ctx =
        .ok (.boolean true)) ∧
    (∀ (n : Nat) (ctx : RenderContext) (x : String) (rest : List TemplateExprNode),
      ctxGet ctx x = none →
      evaluate (n + 1) (.tag "is-set" [] (.identifier x :: rest)) ctx =
        .ok (.boolean false)) ∧
    (∀ (n : Nat) (ctx : RenderContext) (c : TemplateExprNode)
        (rest : List TemplateExprNode), (∀ s, c ≠ .identifier s) →
      evaluate (n + 1) (.tag "is-set" [] (c :: rest)) ctx =
        .error (.render (.isSet "expected identifier" (c :: rest)))) := by
  refine ⟨?_, ?_, ?_⟩
  · intro n ctx x rest v h
    rw [evaluate_isSetTag]
    simp [doIsSetF, h]
  · intro n ctx x rest h
    rw [evaluate_isSetTag]
    simp [doIsSetF, h]
  · intro n ctx c rest h
    rw [evaluate_isSetTag]
    cases c with
    | identifier s => exact absurd rfl (h s)
    | integer i => rfl
    | tag nm attrs ch => rfl

/-- C4 witness: concrete instances — an `Integer`-bound name is set, an
unbound name is not, and a non-identifier child is an `IsSet` error. -/
theorem c4_is_set_witness :
    evaluate 1 (.tag "is-set" [] [.identifier "x"]) (ctxOfInserts [("x", .integer 0)]) =
      .ok (.boolean true) ∧
    evaluate 1 (.tag "is-set" [] [.identifier "y"]) [] = .ok (.boolean false) ∧
    evaluate 1 (.tag "is-set" [] [.integer 3]) [] =
      .error (.render (.isSet "expected identifier" [.integer 3])) :=
  ⟨c4_is_set.1 0 (ctxOfInserts [("x", .integer 0)]) "x" [] (.integer 0) rfl,
   c4_is_set.2.1 0 [] "y" [] rfl,
   c4_is_set.2.2 0 [] (.integer 3) [] (fun _ h => TemplateExprNode.noConfusion h)⟩

/-- C3: for every `if` tag with children `(cond, a, b?)`, the condition
is evaluated first; a value of `Boolean(true)`, a non-empty `String`,
or a non-zero `Integer` selects the second child (an `If` error when it
is absent); a value of `Boolean(false)`, `Integer(0)`, `String("")`, or
`Empty` selects the third child when present and `Empty` otherwise. -/
theorem c3_if_truthiness (n : Nat) (ctx : RenderContext) (cond : TemplateExprNode)
    (rest : List TemplateExprNode) (v : RenderValue)
    (hcond : evaluate n cond ctx = .ok v) :
    ((v = .boolean true ∨ (∃ s, v = .str s ∧ s ≠ "") ∨ (∃ i, v = .integer i ∧ i ≠ 0)) →
      evaluate (n + 1) (.tag "if" [] (cond :: rest)) ctx =
        (match rest.head? with
         | some a => evaluate n a ctx
         | none => .error (.render (.ifTag "code block not found" (cond :: rest))))) ∧
    ((v = .boolean false ∨ v = .integer 0 ∨ v = .str "" ∨ v = .empty) →
      evaluate (n + 1) (.tag "if" [] (cond :: rest)) ctx =
        (match rest.get? 1 with
         | some b => evaluate n b ctx
         | none => .ok .empty)) := by
  have hunf : evaluate (n + 1) (.tag "if" [] (cond :: rest)) ctx =
      (do
        let v2 ← evaluate n cond ctx
        if truthy v2 then
          match rest.head? with
          | some a => evaluate n a ctx
          | none => .error (.render (.ifTag "code block not found" (cond :: rest)))
        else
          match rest.get? 1 with
          | some b => evaluate n b ctx
          | none => .ok .empty) := by
    rw [evaluate_ifTag]
    cases rest with
    | nil => rfl
    | cons a rest2 =>
      cases rest2 with
      | nil => rfl
      | cons b rest3 => rfl
  constructor
  · intro ht
    have htr : truthy v = true := by
      rcases ht with rfl | ⟨s, rfl, hs⟩ | ⟨i, rfl, hi⟩ <;> simp [truthy, *]
    rw [hunf, hcond, ok_bind, htr]
    rfl
  · intro hf
    have htr : truthy v = false := by
      rcases hf with rfl | rfl | rfl | rfl <;> simp [truthy]
    rw [hunf, hcond, ok_bind, htr]
    rfl

/-- C3 witness: concrete instances of both branches — condition
`Integer(1)` (truthy) picks the second child, condition `String("")`
(falsy) with no third child yields `Empty`. -/
theorem c3_if_truthiness_witness :
    evaluate 3 (.tag "if" [] [.integer 1, .identifier "a"]) [] = .ok (.str "a") ∧
    evaluate 3 (.tag "if" [] [.identifier "$e", .identifier "a"])
      (ctxOfInserts [("e", .str "")]) = .ok .empty := by
  constructor
  · have h := (c3_if_truthiness 2 [] (.integer 1) [.identifier "a"] (.integer 1) rfl).1
      (Or.inr (Or.inr ⟨1, rfl, by decide⟩))
    rw [h]
    rfl
  · have h := (c3_if_truthiness 2 (ctxOfInserts [("e", .str "")]) (.identifier "$e")
      [.identifier "a"] (.str "") rfl).2 (Or.inr (Or.inr (Or.inl rfl)))
    rw [h]
    rfl

/-- C5: the comparison builtins compare same-kind operand pairs by the
total order of that kind (Integer, Boolean, String, and List
lexicographically), while operand pairs of different kinds are never
equal and never ordered: `eq` returns `Boolean(false)` on a cross-kind
pair and every order operator treats the pair as unordered (so `lt`,
`gt`, `lte`, `gte` all return `Boolean(false)`). -/
theorem c5_comparisons :
    (∀ a b : Int, rvEq (.integer a) (.integer b) = (a == b) ∧
      rvCmp (.integer a) (.integer b) = some (compare a b)) ∧
    (∀ a b : Bool, rvEq (.boolean a) (.boolean b) = (a == b) ∧
      rvCmp (.boolean a) (.boolean b) = some (compare a b)) ∧
    (∀ a b : String, rvEq (.str a) (.str b) = (a == b) ∧
      rvCmp (.str a) (.str b) = some (compare a b)) ∧
    (∀ xs ys : List Int,
      rvCmp (.vec (xs.map RenderValue.integer)) (.vec (ys.map RenderValue.integer)) =
        some (lexCompareInt xs ys) ∧
      (rvEq (.vec (xs.map RenderValue.integer)) (.vec (ys.map RenderValue.integer)) = true ↔
        xs = ys)) ∧
    (∀ v w : RenderValue, rvKind v ≠ rvKind w → rvEq v w = false ∧ rvCmp v w = none) ∧
    (∀ (n : Nat) (ctx : RenderContext) (c0 c1 : TemplateExprNode) (v w : RenderValue),
      evaluate n c0 ctx = .ok v → evaluate n c1 ctx = .ok w → rvKind v ≠ rvKind w →
      evaluate (n + 1) (.tag "eq" [] [c0, c1]) ctx = .ok (.boolean false) ∧
      evaluate (n + 1) (.tag "lt" [] [c0, c1]) ctx = .ok (.boolean false) ∧
      evaluate (n + 1) (.tag "gt" [] [c0, c1]) ctx = .ok (.boolean false) ∧
      evaluate (n + 1) (.tag "lte" [] [c0, c1]) ctx = .ok (.boolean false) ∧
      evaluate (n + 1) (.tag "gte" [] [c0, c1]) ctx = .ok (.boolean false)) := by
  have hcross : ∀ v w : RenderValue, rvKind v ≠ rvKind w →
      rvEq v w = false ∧ rvCmp v w = none := by
    intro v w hne
    cases v <;> cases w <;> first | exact absurd rfl hne | exact ⟨rfl, rfl⟩
  refine ⟨fun a b => ⟨rfl, rfl⟩, fun a b => ⟨rfl, rfl⟩, fun a b => ⟨rfl, rfl⟩, ?_, hcross, ?_⟩
  · intro xs
    induction xs with
    | nil =>
      intro ys
      cases ys with
      | nil => exact ⟨rfl, by simp [rvEq, rvEqList]⟩
      | cons b ys2 => exact ⟨rfl, by simp [rvEq, rvEqList]⟩
    | cons a xs2 ih =>
      intro ys
      cases ys with
      | nil => exact ⟨rfl, by simp [rvEq, rvEqList]⟩
      | cons b ys2 =>
        constructor
        · show rvCmpList _ _ = _
          have hstep : rvCmp (.integer a) (.integer b) = some (compare a b) := rfl
          show (match rvCmp (.integer a) (.integer b) with
            | some .eq => rvCmpList (xs2.map RenderValue.integer) (ys2.map RenderValue.integer)
            | o => o) = some (lexCompareInt (a :: xs2) (b :: ys2))
          rw [hstep]
          rcases hc : compare a b with _ | _ | _
          · show some Ordering.lt = some (lexCompareInt (a :: xs2) (b :: ys2))
            simp [lexCompareInt, hc]
          · show rvCmpList _ _ = some (lexCompareInt (a :: xs2) (b :: ys2))
            rw [show lexCompareInt (a :: xs2) (b :: ys2) = lexCompareInt xs2 ys2 by
              simp [lexCompareInt, hc]]
            exact (ih ys2).1
          · show some Ordering.gt = some (lexCompareInt (a :: xs2) (b :: ys2))
            simp [lexCompareInt, hc]
        · show (rvEq (.integer a) (.integer b) &&
              rvEqList (xs2.map RenderValue.integer) (ys2.map RenderValue.integer)) = true ↔ _
          have hstep : rvEq (.integer a) (.integer b) = (a == b) := rfl
          rw [hstep]
          constructor
          · intro h
            have h2 := Bool.and_eq_true_iff.mp h
            have ha : a = b := by simpa using h2.1
            have hxs : xs2 = ys2 := (ih ys2).2.mp h2.2
            rw [ha, hxs]
          · intro h
            cases h
            simp only [beq_self_eq_true, Bool.true_and]
            exact (ih xs2).2.mpr rfl
  · intro n ctx c0 c1 v w h0 h1 hne
    have hfacts := hcross v w hne
    have heval : ∀ c : CmpKind,
        doCmpOpF (fun e => evaluate n e ctx) c [c0, c1] =
          .ok (.boolean (cmpFn c v w)) := by
      intro c
      rw [doCmpOpF_pair, h0, ok_bind, h1, ok_bind]
    refine ⟨?_, ?_, ?_, ?_, ?_⟩
    · rw [evaluate_eqTag, heval .ceq]
      show Except.ok (RenderValue.boolean (rvEq v w)) = _
      rw [hfacts.1]
    · rw [evaluate_ltTag, heval .clt]
      show Except.ok (RenderValue.boolean (rvCmp v w == some .lt)) = _
      rw [hfacts.2]
      rfl
    · rw [evaluate_gtTag, heval .cgt]
      show Except.ok (RenderValue.boolean (rvCmp v w == some .gt)) = _
      rw [hfacts.2]
      rfl
    · rw [evaluate_lteTag, heval .cle]
      show Except.ok (RenderValue.boolean (match rvCmp v w with
        | some .lt => true | some .eq => true | _ => false)) = _
      rw [hfacts.2]
    · rw [evaluate_gteTag, heval .cge]
      show Except.ok (RenderValue.boolean (match rvCmp v w with
        | some .gt => true | some .eq => true | _ => false)) = _
      rw [hfacts.2]

/-- C5 witness: `Integer 5` and `String "5"` (a cross-kind pair) are
unequal and unordered through the builtins. -/
theorem c5_comparisons_witness :
    rvKind (.integer 5) ≠ rvKind (.str "5") ∧
    evaluate 3 (.tag "eq" [] [.integer 5, .identifier "$s"])
      (ctxOfInserts [("s", .str "5")]) = .ok (.boolean false) ∧
    evaluate 3 (.tag "lt" [] [.integer 5, .identifier "$s"])
      (ctxOfInserts [("s", .str "5")]) = .ok (.boolean false) := by
  have h := c5_comparisons.2.2.2.2.2 2 (ctxOfInserts [("s", .str "5")])
    (.integer 5) (.identifier "$s") (.integer 5) (.str "5") rfl rfl
    (fun hk => RVKind.noConfusion hk)
  exact ⟨fun hk => RVKind.noConfusion hk, h.1, h.2.1⟩

/-- C6: the arithmetic builtins evaluate both children and fail with a
`Math` error when either does not reduce to an `Integer`; on `Integer`
operands they compute the 64-bit two's-complement sum, difference and
product, the quotient truncated toward zero, and the remainder, with
`(+ 2 3) = 5`, `(* 3 4) = 12`, `(/ 7 2) = 3`, `(% 7 2) = 1`,
`(- 2 3) = -1`; division or remainder by zero is a fatal, unrecovered
runtime failure. -/
theorem c6_math_ops :
    (∀ (n : Nat) (ctx : RenderContext) (m : MathOp) (c0 c1 : TemplateExprNode)
        (v w : RenderValue),
      evaluate n c0 ctx = .ok v → evaluate n c1 ctx = .ok w →
      (rvKind v ≠ .kInteger ∨ rvKind w ≠ .kInteger) →
      evaluate (n + 1) (.tag (mathName m) [] [c0, c1]) ctx =
        .error (.render (.math "operand is not an integer" [c0, c1]))) ∧
    (∀ (n : Nat) (ctx : RenderContext) (c0 c1 : TemplateExprNode) (a b : Int),
      evaluate n c0 ctx = .ok (.integer a) → evaluate n c1 ctx = .ok (.integer b) →
      evaluate (n + 1) (.tag "+" [] [c0, c1]) ctx = .ok (.integer (wrap64 (a + b))) ∧
      evaluate (n + 1) (.tag "-" [] [c0, c1]) ctx = .ok (.integer (wrap64 (a - b))) ∧
      evaluate (n + 1) (.tag "*" [] [c0, c1]) ctx = .ok (.integer (wrap64 (a * b))) ∧
      (b ≠ 0 →
        evaluate (n + 1) (.tag "/" [] [c0, c1]) ctx =
          .ok (.integer (wrap64 (Int.tdiv a b))) ∧
        evaluate (n + 1) (.tag "%" [] [c0, c1]) ctx = .ok (.integer (Int.tmod a b))) ∧
      (b = 0 →
        evaluate (n + 1) (.tag "/" [] [c0, c1]) ctx = .error .panic ∧
        evaluate (n + 1) (.tag "%" [] [c0, c1]) ctx = .error .panic)) ∧
    (evaluate 2 (.tag "+" [] [.integer 2, .integer 3]) [] = .ok (.integer 5) ∧
     evaluate 2 (.tag "*" [] [.integer 3, .integer 4]) [] = .ok (.integer 12) ∧
     evaluate 2 (.tag "/" [] [.integer 7, .integer 2]) [] = .ok (.integer 3) ∧
     evaluate 2 (.tag "%" [] [.integer 7, .integer 2]) [] = .ok (.integer 1) ∧
     evaluate 2 (.tag "-" [] [.integer 2, .integer 3]) [] = .ok (.integer (-1))) := by
  refine ⟨?_, ?_, rfl, rfl, rfl, rfl, rfl⟩
  · intro n ctx m c0 c1 v w h0 h1 hni
    rw [evaluate_mathTag, doMathOpF_pair, h0, ok_bind, h1, ok_bind]
    cases v <;> cases w <;>
      first
        | (rcases hni with h | h <;> exact absurd rfl h)
        | rfl
  · intro n ctx c0 c1 a b h0 h1
    have hunf : ∀ m : MathOp,
        evaluate (n + 1) (.tag (mathName m) [] [c0, c1]) ctx =
          (match m with
           | .add => .ok (.integer (wrap64 (a + b)))
           | .sub => .ok (.integer (wrap64 (a - b)))
           | .mul => .ok (.integer (wrap64 (a * b)))
           | .div => if b = 0 then .error .panic else .ok (.integer (wrap64 (Int.tdiv a b)))
           | .mod => if b = 0 then .error .panic else .ok (.integer (Int.tmod a b))) := by
      intro m
      rw [evaluate_mathTag, doMathOpF_pair, h0, ok_bind, h1, ok_bind]
    have hdiv : evaluate (n + 1) (.tag "/" [] [c0, c1]) ctx =
        (if b = 0 then .error .panic else .ok (.integer (wrap64 (Int.tdiv a b)))) :=
      hunf .div
    have hmod : evaluate (n + 1) (.tag "%" [] [c0, c1]) ctx =
        (if b = 0 then .error .panic else .ok (.integer (Int.tmod a b))) :=
      hunf .mod
    refine ⟨hunf .add, hunf .sub, hunf .mul, ?_, ?_⟩
    · intro hb
      constructor
      · rw [hdiv]
        simp [hb]
      · rw [hmod]
        simp [hb]
    · intro hb
      constructor
      · rw [hdiv]
        simp [hb]
      · rw [hmod]
        simp [hb]

/-- C6 witness: concrete instances of the error case (a string operand)
and the division-by-zero fatal failure; the arithmetic examples are
closed conjuncts of the theorem itself. -/
theorem c6_math_ops_witness :
    evaluate 3 (.tag (mathName .add) [] [.identifier "x", .integer 3]) [] =
      .error (.render (.math "operand is not an integer" [.identifier "x", .integer 3])) ∧
    evaluate 2 (.tag "/" [] [.integer 7, .integer 0]) [] = .error .panic := by
  constructor
  · exact c6_math_ops.1 2 [] .add (.identifier "x") (.integer 3) (.str "x") (.integer 3)
      rfl rfl (Or.inl (fun hk => RVKind.noConfusion hk))
  · exact ((c6_math_ops.2.1 1 [] (.integer 7) (.integer 0) 7 0 rfl rfl).2.2.2.2 rfl).1

/-- C8: `(get L i)` on an evaluated `List` and `Integer` returns the
element at the 0-based index `i` when `0 ≤ i < len(L)` and fails with a
`Get` "out of bounds" error otherwise (in particular at `i = len(L)`);
`(get O s)` on an `Object` and `String` returns the member named `s` or
fails analogously when absent; any other kind pairing fails with a
`Get` "invalid index or indexable" error. -/
theorem c8_get :
    (∀ (n : Nat) (ctx : RenderContext) (c0 c1 : TemplateExprNode) (L : List RenderValue)
        (i : Int) (x : RenderValue),
      evaluate n c0 ctx = .ok (.vec L) → evaluate n c1 ctx = .ok (.integer i) →
      0 ≤ i → L.get? i.toNat = some x →
      evaluate (n + 1) (.tag "get" [] [c0, c1]) ctx = .ok x) ∧
    (∀ (n : Nat) (ctx : RenderContext) (c0 c1 : TemplateExprNode) (L : List RenderValue)
        (i : Int),
      evaluate n c0 ctx = .ok (.vec L) → evaluate n c1 ctx = .ok (.integer i) →
      (i < 0 ∨ (L.length : Int) ≤ i) →
      evaluate (n + 1) (.tag "get" [] [c0, c1]) ctx =
        .error (.render (.getTag "out of bounds" [c0, c1]))) ∧
    (∀ (n : Nat) (ctx : RenderContext) (c0 c1 : TemplateExprNode)
        (entries : List (String × RenderValue)) (s : String) (x : RenderValue),
      evaluate n c0 ctx = .ok (.object entries) → evaluate n c1 ctx = .ok (.str s) →
      mapLookup entries s = some x →
      evaluate (n + 1) (.tag "get" [] [c0, c1]) ctx = .ok x) ∧
    (∀ (n : Nat) (ctx : RenderContext) (c0 c1 : TemplateExprNode)
        (entries : List (String × RenderValue)) (s : String),
      evaluate n c0 ctx = .ok (.object entries) → evaluate n c1 ctx = .ok (.str s) →
      mapLookup entries s = none →
      evaluate (n + 1) (.tag "get" [] [c0, c1]) ctx =
        .error (.render (.getTag "member not found" [c0, c1]))) ∧
    (∀ (n : Nat) (ctx : RenderContext) (c0 c1 : TemplateExprNode) (v w : RenderValue),
      evaluate n c0 ctx = .ok v → evaluate n c1 ctx = .ok w → getShape v w = false →
      evaluate (n + 1) (.tag "get" [] [c0, c1]) ctx =
        .error (.render (.getTag "invalid index or indexable" [c0, c1]))) := by
  refine ⟨?_, ?_, ?_, ?_, ?_⟩
  · intro n ctx c0 c1 L i x h0 h1 hi hx
    rw [evaluate_getTag, doGetF_pair, h0, ok_bind, h1, ok_bind]
    show (if 0 ≤ i then
        match L.get? i.toNat with
        | some y => Except.ok y
        | none => Except.error (EvalErr.render (RenderError.getTag "out of bounds" [c0, c1]))
      else Except.error (EvalErr.render (RenderError.getTag "out of bounds" [c0, c1]))) =
      Except.ok x
    rw [if_pos hi, hx]
  · intro n ctx c0 c1 L i h0 h1 hout
    rw [evaluate_getTag, doGetF_pair, h0, ok_bind, h1, ok_bind]
    show (if 0 ≤ i then
        match L.get? i.toNat with
        | some y => Except.ok y
        | none => Except.error (EvalErr.render (RenderError.getTag "out of bounds" [c0, c1]))
      else Except.error (EvalErr.render (RenderError.getTag "out of bounds" [c0, c1]))) =
      Except.error (EvalErr.render (RenderError.getTag "out of bounds" [c0, c1]))
    rcases hout with hneg | hbig
    · rw [if_neg (by omega)]
    · have hnone : L.get? i.toNat = none := by
        rw [List.get?_eq_none]
        omega
      by_cases hi : 0 ≤ i
      · rw [if_pos hi, hnone]
      · rw [if_neg hi]
  · intro n ctx c0 c1 entries s x h0 h1 hx
    rw [evaluate_getTag, doGetF_pair, h0, ok_bind, h1, ok_bind]
    show (match mapLookup entries s with
      | some y => Except.ok y
      | none => Except.error (EvalErr.render (RenderError.getTag "member not found" [c0, c1]))) =
      Except.ok x
    rw [hx]
  · intro n ctx c0 c1 entries s h0 h1 hx
    rw [evaluate_getTag, doGetF_pair, h0, ok_bind, h1, ok_bind]
    show (match mapLookup entries s with
      | some y => Except.ok y
      | none => Except.error (EvalErr.render (RenderError.getTag "member not found" [c0, c1]))) =
      Except.error (EvalErr.render (RenderError.getTag "member not found" [c0, c1]))
    rw [hx]
  · intro n ctx c0 c1 v w h0 h1 hshape
    rw [evaluate_getTag, doGetF_pair, h0, ok_bind, h1, ok_bind]
    cases v <;> cases w <;> try rfl
    all_goals exact absurd hshape (by simp [getShape])

/-- C8 witness: concrete instances — an in-range list index, the
out-of-bounds index `len(L)`, a present and an absent object member,
and an invalid kind pairing. -/
theorem c8_get_witness :
    evaluate 4 (.tag "get" [] [.identifier "$a", .integer 1])
      (ctxOfInserts [("a", .vec [.str "x", .str "y", .str "z"])]) = .ok (.str "y") ∧
    evaluate 4 (.tag "get" [] [.identifier "$a", .integer 3])
      (ctxOfInserts [("a", .vec [.str "x", .str "y", .str "z"])]) =
      .error (.render (.getTag "out of bounds" [.identifier "$a", .integer 3])) ∧
    evaluate 4 (.tag "get" [] [.identifier "$o", .identifier "k"])
      (ctxOfInserts [("o", .object [("k", .str "m")])]) = .ok (.str "m") ∧
    evaluate 4 (.tag "get" [] [.identifier "$o", .identifier "z"])
      (ctxOfInserts [("o", .object [("k", .str "m")])]) =
      .error (.render (.getTag "member not found" [.identifier "$o", .identifier "z"])) ∧
    evaluate 4 (.tag "get" [] [.integer 4, .integer 0]) [] =
      .error (.render (.getTag "invalid index or indexable" [.integer 4, .integer 0])) := by
  refine ⟨?_, ?_, ?_, ?_, ?_⟩
  · exact c8_get.1 3 (ctxOfInserts [("a", .vec [.str "x", .str "y", .str "z"])])
      (.identifier "$a") (.integer 1) [.str "x", .str "y", .str "z"] 1 (.str "y")
      rfl rfl (by decide) rfl
  · exact c8_get.2.1 3 (ctxOfInserts [("a", .vec [.str "x", .str "y", .str "z"])])
      (.identifier "$a") (.integer 3) [.str "x", .str "y", .str "z"] 3
      rfl rfl (Or.inr (by decide))
  · exact c8_get.2.2.1 3 (ctxOfInserts [("o", .object [("k", .str "m")])])
      (.identifier "$o") (.identifier "k") [("k", .str "m")] "k" (.str "m") rfl rfl rfl
  · exact c8_get.2.2.2.1 3 (ctxOfInserts [("o", .object [("k", .str "m")])])
      (.identifier "$o") (.identifier "z") [("k", .str "m")] "z" rfl rfl rfl
  · exact c8_get.2.2.2.2 3 [] (.integer 4) (.integer 0) (.integer 4) (.integer 0)
      rfl rfl rfl

/-- C1: no binding introduced during evaluation is visible in the
caller's context or an ancestor scope: sibling nodes are all evaluated
against the same caller context (`evaluate_multiple` passes it
unchanged), and each binding-introducing builtin — the `for` loop
variable, the `enumerate` index, the `for k v` key/value variables, and
the hidden `switch` discriminant — inserts its bindings only into
copies of the caller's context (`ctxInsert` extensions), which are
local to the body/case evaluations. -/
theorem c1_scope_copy :
    (∀ (fuel : Nat) (es : List TemplateExprNode) (ctx : RenderContext),
      evaluateMultiple fuel es ctx =
        (mapE (fun e => evaluate fuel e ctx) es).map RenderValue.vec) ∧
    (∀ (n : Nat) (ctx : RenderContext) (x it : String) (elems : List ContextValue)
        (body : List TemplateExprNode),
      (x == "in") = false → ctxGet ctx it = some (.vec elems) →
      evaluate (n + 1)
        (.tag "for" [] (.identifier x :: .identifier "in" :: .identifier it :: body)) ctx =
        (mapE (fun v => evaluateMultiple n body (ctxInsert ctx x v)) elems).map
          RenderValue.vec) ∧
    (∀ (n : Nat) (ctx : RenderContext) (idx itm it : String) (elems : List ContextValue)
        (body : List TemplateExprNode),
      ctxGet ctx it = some (.vec elems) →
      evaluate (n + 1)
        (.tag "for" []
          (.tag "enumerate" [] [.identifier idx, .identifier itm] ::
            .identifier "in" :: .identifier it :: body)) ctx =
        (mapE (fun iv : Nat × ContextValue => evaluateMultiple n body
            (ctxInsert (ctxInsert ctx itm iv.2) idx (.integer (Int.ofNat iv.1))))
          elems.enum).map RenderValue.vec) ∧
    (∀ (n : Nat) (ctx : RenderContext) (kv vv it : String)
        (entries : List (String × ContextValue)) (body : List TemplateExprNode),
      (kv == "in") = false → (vv == "in") = false →
      ctxGet ctx it = some (.object entries) →
      evaluate (n + 1)
        (.tag "for" []
          (.identifier kv :: .identifier vv :: .identifier "in" :: .identifier it :: body))
        ctx =
        (mapE (fun e : String × ContextValue => evaluateMultiple n body
            (ctxInsert (ctxInsert ctx kv (.str e.1)) vv e.2)) entries).map
          RenderValue.vec) ∧
    (∀ (n : Nat) (ctx : RenderContext) (c0 : TemplateExprNode)
        (cases1 : List TemplateExprNode) (v : RenderValue),
      evaluate n c0 ctx = .ok v →
      evaluate (n + 1) (.tag "switch" [] (c0 :: cases1)) ctx =
        (mapE (fun cs => evaluate n cs (ctxInsert ctx "__switch" (.str (finalize v))))
          cases1).map RenderValue.vec) := by
  refine ⟨fun _ _ _ => rfl, ?_, ?_, ?_, ?_⟩
  · intro n ctx x it elems body hx hget
    exact doFor_list_eq n ctx x it elems body hx hget
  · intro n ctx idx itm it elems body hget
    exact doFor_enum_eq n ctx idx itm it elems body hget
  · intro n ctx kv vv it entries body hkv hvv hget
    exact doFor_object_eq n ctx kv vv it entries body hkv hvv hget
  · intro n ctx c0 cases1 v hv
    exact doSwitch_eq n ctx c0 cases1 v hv

/-- C1 witness: concrete runs of every binding-introducing form — a
list loop, an enumerate loop, an object loop, and a switch whose hidden
discriminant is visible only inside the case evaluation. -/
theorem c1_scope_copy_witness :
    evaluate 3 (.tag "for" [] [.identifier "i", .identifier "in", .identifier "l",
        .identifier "$i"]) (ctxOfInserts [("l", .vec [.str "p", .str "q"])]) =
      .ok (.vec [.vec [.str "p"], .vec [.str "q"]]) ∧
    evaluate 3 (.tag "for" [] [.tag "enumerate" [] [.identifier "k", .identifier "i"],
        .identifier "in", .identifier "l", .identifier "$k"])
      (ctxOfInserts [("l", .vec [.str "p"])]) = .ok (.vec [.vec [.integer 0]]) ∧
    evaluate 3 (.tag "for" [] [.identifier "k", .identifier "v", .identifier "in",
        .identifier "o", .identifier "$v"])
      (ctxOfInserts [("o", .object [("a", .str "X")])]) =
      .ok (.vec [.vec [.str "X"]]) ∧
    evaluate 3 (.tag "switch" [] [.integer 1, .identifier "$__switch"]) [] =
      .ok (.vec [.str "1"]) := by
  refine ⟨?_, ?_, ?_, ?_⟩
  · rw [c1_scope_copy.2.1 2 (ctxOfInserts [("l", .vec [.str "p", .str "q"])]) "i" "l"
      [.str "p", .str "q"] [.identifier "$i"] rfl rfl]
    rfl
  · rw [c1_scope_copy.2.2.1 2 (ctxOfInserts [("l", .vec [.str "p"])]) "k" "i" "l"
      [.str "p"] [.identifier "$k"] rfl]
    rfl
  · rw [c1_scope_copy.2.2.2.1 2 (ctxOfInserts [("o", .object [("a", .str "X")])])
      "k" "v" "o" [("a", .str "X")] [.identifier "$v"] rfl rfl rfl]
    rfl
  · rw [c1_scope_copy.2.2.2.2 2 [] (.integer 1) [.identifier "$__switch"]
      (.integer 1) rfl]
    rfl

/-- C7 counterexample: with `min = 5`, `max = 3` (and the default step
`1`) the loop body is evaluated `0` times, but
`ceil((max - min) / step) = (3 - 5 + 1 - 1) / 1 = -2 ≠ 0`, so the claim
as stated is false. -/
theorem c7_range_count_counterexample :
    evaluate 3 (.tag "for" [] [.identifier "i", .identifier "in",
        .tag "range" [] [.integer 5, .integer 3], .identifier "$i"]) [] =
      .ok (.vec []) ∧
    (rangeList 5 3 1).length = 0 ∧
    ((3 - 5 + 1 - 1 : Int) / 1 = -2) ∧
    ¬ (((rangeList 5 3 1).length : Int) = (3 - 5 + 1 - 1) / 1) :=
  ⟨rfl, rfl, by decide, by decide⟩

/-- C7 (amended): for the iterable form `(range min max step?)`, the
children are expressions evaluated to integers (the step defaulting to
`1`), the range produces the synthetic list of integers in
`[min, max)` stepping by `step`, the body is evaluated once per element
in order, and — when `min ≤ max` and `0 < step` — the number of
elements is `ceil((max - min) / step)` (`(max - min + step - 1) / step`);
the elements are strictly increasing, start at `min` and exclude
`max`.  (The count equation fails for `max < min`, where the loop runs
`0` times; see the counterexample.) -/
theorem c7_for_range_amended :
    (∀ (n : Nat) (ctx : RenderContext) (x : String) (body : List TemplateExprNode)
        (e1 e2 : TemplateExprNode) (lo hi : Int),
      (x == "in") = false →
      evaluate n e1 ctx = .ok (.integer lo) → evaluate n e2 ctx = .ok (.integer hi) →
      evaluate (n + 1)
        (.tag "for" []
          (.identifier x :: .identifier "in" :: .tag "range" [] [e1, e2] :: body)) ctx =
        (mapE (fun v => evaluateMultiple n body (ctxInsert ctx x v))
          ((rangeList lo hi 1).map ContextValue.integer)).map RenderValue.vec) ∧
    (∀ (n : Nat) (ctx : RenderContext) (x : String) (body : List TemplateExprNode)
        (e1 e2 e3 : TemplateExprNode) (lo hi st : Int),
      (x == "in") = false →
      evaluate n e1 ctx = .ok (.integer lo) → evaluate n e2 ctx = .ok (.integer hi) →
      evaluate n e3 ctx = .ok (.integer st) →
      evaluate (n + 1)
        (.tag "for" []
          (.identifier x :: .identifier "in" :: .tag "range" [] [e1, e2, e3] :: body)) ctx =
        (mapE (fun v => evaluateMultiple n body (ctxInsert ctx x v))
          ((rangeList lo hi st).map ContextValue.integer)).map RenderValue.vec) ∧
    (∀ lo hi st : Int, 0 < st → lo ≤ hi →
      ((rangeList lo hi st).length : Int) = (hi - lo + st - 1) / st) ∧
    (∀ lo hi st : Int, 0 < st → List.Chain' (· < ·) (rangeList lo hi st)) ∧
    (∀ lo hi st : Int, 0 < st → ∀ v ∈ rangeList lo hi st, lo ≤ v ∧ v < hi) ∧
    (∀ lo hi st : Int, 0 < st → lo < hi → (rangeList lo hi st).head? = some lo) := by
  refine ⟨?_, ?_, ?_, ?_, ?_, ?_⟩
  · intro n ctx x body e1 e2 lo hi hx h1 h2
    exact doFor_range_eq n ctx x body e1 e2 lo hi hx h1 h2
  · intro n ctx x body e1 e2 e3 lo hi st hx h1 h2 h3
    exact doFor_range_step_eq n ctx x body e1 e2 e3 lo hi st hx h1 h2 h3
  · intro lo hi st hst hle
    exact rangeList_length hst (hi - lo).toNat lo hi le_rfl hle
  · intro lo hi st hst
    exact rangeList_chain hst (hi - lo).toNat lo hi le_rfl
  · intro lo hi st hst v hv
    exact rangeList_mem hst (hi - lo).toNat lo hi le_rfl v hv
  · intro lo hi st hst hlt
    exact rangeList_head hst hlt

/-- C7 witness: the amended claim at `(range 0 2)` — two iterations
with bindings `0` and `1`, a count matching the ceiling formula, and
strictly increasing elements starting at `0`. -/
theorem c7_for_range_amended_witness :
    evaluate 3 (.tag "for" [] [.identifier "i", .identifier "in",
        .tag "range" [] [.integer 0, .integer 2], .identifier "$i"]) [] =
      .ok (.vec [.vec [.integer 0], .vec [.integer 1]]) ∧
    ((rangeList 0 2 1).length : Int) = (2 - 0 + 1 - 1) / 1 ∧
    List.Chain' (· < ·) (rangeList 0 2 1) ∧
    (rangeList 0 2 1).head? = some 0 := by
  refine ⟨?_, ?_, ?_, ?_⟩
  · rw [c7_for_range_amended.1 2 [] "i" [.identifier "$i"] (.integer 0) (.integer 2)
      0 2 rfl rfl rfl]
    rfl
  · exact c7_for_range_amended.2.2.1 0 2 1 (by decide) (by decide)
  · exact c7_for_range_amended.2.2.2.1 0 2 1 (by decide)
  · exact c7_for_range_amended.2.2.2.2.2 0 2 1 (by decide) (by decide)

/-- C10: iterating an `Object` with `(for k v in $obj ...)` visits its
entries in ascending lexicographic order of the key strings — the order
of the underlying sorted map — independently of the order in which the
caller inserted them: the keys of any insert-built context are in
strict ascending order, two insertion sequences that are permutations
of each other (with distinct stripped keys) build the same context, and
the object loop visits exactly the stored entries in stored order. -/
theorem c10_object_iteration_order :
    (∀ kvs : List (String × ContextValue),
      List.Chain' (fun a b => keyLt a.1 b.1 = true) (ctxOfInserts kvs)) ∧
    (∀ kvs1 kvs2 : List (String × ContextValue), kvs1.Perm kvs2 →
      (kvs1.map (fun kv => stripSigils kv.1)).Nodup →
      ctxOfInserts kvs1 = ctxOfInserts kvs2) ∧
    (∀ (n : Nat) (ctx : RenderContext) (kv vv it : String)
        (entries : List (String × ContextValue)) (body : List TemplateExprNode),
      (kv == "in") = false → (vv == "in") = false →
      ctxGet ctx it = some (.object entries) →
      evaluate (n + 1)
        (.tag "for" []
          (.identifier kv :: .identifier vv :: .identifier "in" :: .identifier it :: body))
        ctx =
        (mapE (fun e : String × ContextValue => evaluateMultiple n body
            (ctxInsert (ctxInsert ctx kv (.str e.1)) vv e.2)) entries).map
          RenderValue.vec) := by
  refine ⟨chain_ctxOfInserts, ?_, ?_⟩
  · intro kvs1 kvs2 hperm hnd
    exact foldl_ctxInsert_perm hperm hnd []
  · intro n ctx kv vv it entries body hkv hvv hget
    exact doFor_object_eq n ctx kv vv it entries body hkv hvv hget

/-- C10 witness: two opposite insertion orders build the same context,
whose object-loop iteration visits the keys in ascending order. -/
theorem c10_object_iteration_order_witness :
    ctxOfInserts [("b", .integer 1), ("a", .integer 2)] =
      ctxOfInserts [("a", .integer 2), ("b", .integer 1)] ∧
    evaluate 3 (.tag "for" [] [.identifier "k", .identifier "v", .identifier "in",
        .identifier "o", .identifier "$k"])
      (ctxOfInserts [("o", .object (ctxOfInserts [("b", .str "B"), ("a", .str "A")]))]) =
      .ok (.vec [.vec [.str "a"], .vec [.str "b"]]) := by
  constructor
  · exact c10_object_iteration_order.2.1 [("b", .integer 1), ("a", .integer 2)]
      [("a", .integer 2), ("b", .integer 1)]
      (List.Perm.swap ("a", ContextValue.integer 2) ("b", ContextValue.integer 1) [])
      (by decide)
  · rw [c10_object_iteration_order.2.2 2
      (ctxOfInserts [("o", .object (ctxOfInserts [("b", .str "B"), ("a", .str "A")]))])
      "k" "v" "o" (ctxOfInserts [("b", .str "B"), ("a", .str "A")])
      [.identifier "$k"] rfl rfl rfl]
    rfl

end Sato
